import Mathlib

/-!
Verification development for the `secrets-cli` repository: a shallow
embedding in Lean 4 of the membership-driven re-encryption engine, the
name-validation boundary, the access guard and the vault lifecycle
commands, together with theorems settling the specification claims.

Conventions:
* Go strings are embedded as `List Char` (`GoStr`); `gs` converts a Lean
  string literal.
* Go functions returning `error` are embedded as `Except Err _` or as a
  pair `state × Except Err _` when the on-disk state at the moment of the
  failure matters.
* External tools (`gpg`, `pass`) are out of scope of the repository; their
  observable behaviour is a parameter (`PassTool`) or is modelled from the
  specification where the spec pins it down (`goodPassTool`, keyring
  import).  Each definition's doc comment names the Go source it embeds.
-/

namespace SecretsCli

/-- Go strings, embedded as lists of characters. -/
abbrev GoStr := List Char

/-- Convert a Lean string literal to the `GoStr` embedding. -/
def gs (s : String) : GoStr := s.toList

/-- Embeds Go `strings.HasPrefix(s, pre)`. -/
def startsWith (s pre : GoStr) : Bool := pre.isPrefixOf s

/-- Embeds Go `strings.HasSuffix(s, suf)`. -/
def endsWith (s suf : GoStr) : Bool := suf.isSuffixOf s

/-- Embeds Go `strings.Contains(s, sub)`: substring search. -/
def containsStr (s sub : GoStr) : Bool := s.tails.any (fun t => sub.isPrefixOf t)

/-- Embeds Go `strings.ContainsAny(s, chars)`. -/
def containsAny (s chars : GoStr) : Bool := s.any (fun c => chars.contains c)

/-- Embeds Go `strings.Split(s, "/")` (separator a single slash): a
separator opens a new segment, any other character extends the current
first segment.  (`splitSlash` never returns `[]`, so `headI`/`tail`
recombination is exact.) -/
def splitSlash : GoStr → List GoStr
  | [] => [[]]
  | c :: rest =>
    if c = '/' then [] :: splitSlash rest
    else (c :: (splitSlash rest).headI) :: (splitSlash rest).tail

/-- Embeds Go `strings.EqualFold` restricted to ASCII-style folding:
case-insensitive equality by lower-casing both sides. -/
def eqFold (a b : GoStr) : Bool := a.map Char.toLower == b.map Char.toLower

theorem containsStr_iff (s sub : GoStr) : containsStr s sub = true ↔ sub <:+: s := by
  unfold containsStr
  rw [List.any_eq_true]
  constructor
  · rintro ⟨t, ht, hp⟩
    rw [List.mem_tails] at ht
    rw [List.isPrefixOf_iff_prefix] at hp
    exact List.infix_iff_prefix_suffix.mpr ⟨t, hp, ht⟩
  · intro h
    rcases List.infix_iff_prefix_suffix.mp h with ⟨t, hp, ht⟩
    exact ⟨t, (List.mem_tails t s).mpr ht, List.isPrefixOf_iff_prefix.mpr hp⟩

theorem startsWith_iff (s pre : GoStr) : startsWith s pre = true ↔ pre <+: s :=
  List.isPrefixOf_iff_prefix

theorem endsWith_iff (s suf : GoStr) : endsWith s suf = true ↔ suf <:+ s :=
  List.isSuffixOf_iff_suffix

theorem containsAny_iff (s chars : GoStr) :
    containsAny s chars = true ↔ ∃ c ∈ s, c ∈ chars := by
  unfold containsAny
  rw [List.any_eq_true]
  constructor
  · rintro ⟨c, hc, h⟩; exact ⟨c, hc, List.elem_iff.mp h⟩
  · rintro ⟨c, hc, h⟩; exact ⟨c, hc, List.elem_iff.mpr h⟩

/-- Error taxonomy: one constructor per distinct error-return site of the
Go sources (messages elided; the wrapped structure of `%w` chains kept). -/
inductive Err
  | nameEmpty
  | invalidName (n : GoStr)
  | invalidSecretName (n : GoStr)
  | secretsDirNotFound
  | emailRequired
  | vaultExists (v : GoStr)
  | vaultNotFound (v : GoStr)
  | gpgKeyNotFound (e : GoStr)
  | accessDenied (v : GoStr)
  | keyNotFound (e : GoStr)
  | alreadyMember (e v : GoStr)
  | notAMember (e v : GoStr)
  | cannotRemoveLastMember
  | forceRequired (v : GoStr)
  | mkdirFailed
  | saveConfigFailed
  | passError
  | secretNotFound (v n : GoStr)
  | emptyValue
  | deletionCancelled (v n : GoStr)
  | gpgIdNotFoundInKeyring (id : GoStr)
  | noRecipients (n : GoStr)
  | recipientCountMismatch (n : GoStr) (actual expected : Nat)
  | reencryptionVerificationFailed (inner : Err)
  | reencryptFailed (inner : Err)
deriving DecidableEq, Repr

/-- Decidable equality for `Except` results (core provides none). -/
instance exceptDecidableEq {ε α : Type} [DecidableEq ε] [DecidableEq α] :
    DecidableEq (Except ε α)
  | .ok a, .ok b =>
    if h : a = b then .isTrue (by rw [h]) else .isFalse (fun hx => h (Except.ok.inj hx))
  | .ok _, .error _ => .isFalse (fun hx => Except.noConfusion hx)
  | .error _, .ok _ => .isFalse (fun hx => Except.noConfusion hx)
  | .error e, .error f =>
    if h : e = f then .isTrue (by rw [h]) else .isFalse (fun hx => h (Except.error.inj hx))

/-- Embeds `validateName` (`internal/cmd/root.go`): rejects the empty
string, any occurrence of `..`, any `/` or `\`, and a leading `-`. -/
def validateName (name : GoStr) : Except Err Unit :=
  if name = [] then .error .nameEmpty
  else if containsStr name (gs "..") || containsAny name (gs "/\\")
       || startsWith name (gs "-") then .error (.invalidName name)
  else .ok ()

/-- Modelled from the spec: `validateSecretName` — the hierarchical-name
validator is invoked by `internal/cmd/validation_test.go` and demanded by
the spec (§4.1), but its definition is absent from the provided sources.
Per the spec it fails if the string is empty, begins with `-`, begins or
ends with `/`, contains `//`, contains a `..` path segment, or contains
`\`; it accepts everything else. -/
def validateSecretName (name : GoStr) : Except Err Unit :=
  if name = [] then .error .nameEmpty
  else if startsWith name (gs "-") || startsWith name (gs "/")
       || endsWith name (gs "/") || containsStr name (gs "//")
       || containsStr name (gs "\\")
       || (splitSlash name).contains (gs "..") then .error (.invalidSecretName name)
  else .ok ()

theorem splitSlash_ne_nil (s : GoStr) : splitSlash s ≠ [] := by
  match s with
  | [] => simp [splitSlash]
  | c :: rest =>
    unfold splitSlash
    by_cases h : c = '/'
    · simp [h]
    · rw [if_neg h]
      simp

theorem splitSlash_cons_slash (s : GoStr) : splitSlash ('/' :: s) = [] :: splitSlash s := by
  simp [splitSlash]

theorem splitSlash_cons_ne (c : Char) (s : GoStr) (h : c ≠ '/') :
    splitSlash (c :: s) = (c :: (splitSlash s).headI) :: (splitSlash s).tail := by
  conv_lhs => unfold splitSlash
  rw [if_neg h]

theorem slash_prefix_cons_iff (c : Char) (rest : GoStr) :
    ['/'] <+: (c :: rest) ↔ c = '/' := by
  constructor
  · intro h
    exact ((List.cons_prefix_cons.mp h).1).symm
  · intro h
    exact List.cons_prefix_cons.mpr ⟨h.symm, List.nil_prefix⟩

theorem slash_suffix_cons_iff (c : Char) (rest : GoStr) (h : rest ≠ []) :
    ['/'] <:+ (c :: rest) ↔ ['/'] <:+ rest := by
  rw [List.suffix_cons_iff]
  constructor
  · rintro (h1 | h1)
    · injection h1 with h1a h1b
      exact absurd h1b.symm h
    · exact h1
  · intro h1
    exact Or.inr h1

theorem slash_suffix_single_iff (c : Char) : ['/'] <:+ [c] ↔ c = '/' := by
  rw [List.suffix_cons_iff]
  constructor
  · rintro (h1 | h1)
    · exact ((List.cons.injEq _ _ _ _ ▸ h1 : _ ∧ _).1).symm
    · rw [List.suffix_nil] at h1
      simp at h1
  · intro h
    subst h
    exact Or.inl rfl

theorem dslash_infix_cons_iff (c : Char) (rest : GoStr) (h : c ≠ '/') :
    ['/', '/'] <:+: (c :: rest) ↔ ['/', '/'] <:+: rest := by
  rw [List.infix_cons_iff]
  constructor
  · rintro (h1 | h1)
    · exact absurd ((List.cons_prefix_cons.mp h1).1).symm h
    · exact h1
  · intro h1
    exact Or.inr h1

theorem dslash_infix_slash_cons_iff (rest : GoStr) :
    ['/', '/'] <:+: ('/' :: rest) ↔ ['/'] <+: rest ∨ ['/', '/'] <:+: rest := by
  rw [List.infix_cons_iff]
  constructor
  · rintro (h1 | h1)
    · exact Or.inl (List.cons_prefix_cons.mp h1).2
    · exact Or.inr h1
  · rintro (h1 | h1)
    · exact Or.inl (List.cons_prefix_cons.mpr ⟨rfl, h1⟩)
    · exact Or.inr h1

/-- The predicate "no empty `/`-separated segment", phrased on the raw
string as the hierarchical validator's patterns do. -/
def NoSlashPattern (s : GoStr) : Prop :=
  s ≠ [] ∧ ¬ ['/'] <+: s ∧ ¬ ['/'] <:+ s ∧ ¬ ['/', '/'] <:+: s

/-- The segment-wise reading of the hierarchical-name patterns: every
`/`-separated segment of `s` is non-empty exactly when `s` is non-empty,
does not begin or end with `/`, and has no `//`. -/
theorem splitSlash_all_ne_nil (s : GoStr) :
    (∀ seg ∈ splitSlash s, seg ≠ []) ↔ NoSlashPattern s := by
  have main : ∀ n, ∀ s : GoStr, s.length ≤ n →
      ((∀ seg ∈ splitSlash s, seg ≠ []) ↔ NoSlashPattern s) := by
    intro n
    induction n with
    | zero =>
      intro s hs
      have h0 : s = [] := List.length_eq_zero.mp (Nat.le_zero.mp hs)
      subst h0
      simp [splitSlash, NoSlashPattern]
    | succ n ih =>
      intro s hs
      match s with
      | [] => simp [splitSlash, NoSlashPattern]
      | c :: rest =>
        by_cases hc : c = '/'
        · subst hc
          rw [splitSlash_cons_slash]
          unfold NoSlashPattern
          constructor
          · intro h
            exact absurd rfl (h [] (by simp))
          · rintro ⟨-, hpre, -, -⟩
            exact absurd ((slash_prefix_cons_iff _ _).mpr rfl) hpre
        · match rest with
          | [] =>
            rw [splitSlash_cons_ne c [] hc]
            unfold NoSlashPattern
            simp only [splitSlash, List.headI, List.tail]
            constructor
            · intro _
              refine ⟨by simp, ?_, ?_, ?_⟩
              · rw [slash_prefix_cons_iff]
                exact hc
              · rw [slash_suffix_single_iff]
                exact hc
              · rw [dslash_infix_cons_iff c [] hc, List.infix_nil]
                simp
            · intro _ seg hseg
              simp at hseg
              subst hseg
              simp
          | d :: rest' =>
            by_cases hd : d = '/'
            · subst hd
              rw [splitSlash_cons_ne c ('/' :: rest') hc, splitSlash_cons_slash]
              simp only [List.headI, List.tail]
              have hlen : rest'.length ≤ n := by
                simp only [List.length_cons] at hs
                omega
              have hiff : (∀ seg ∈ (c :: ([] : GoStr)) :: splitSlash rest', seg ≠ []) ↔
                  (∀ seg ∈ splitSlash rest', seg ≠ []) := by
                simp
              rw [hiff, ih rest' hlen]
              unfold NoSlashPattern
              constructor
              · rintro ⟨hne, hp, hsuf, hinf⟩
                refine ⟨by simp, ?_, ?_, ?_⟩
                · rw [slash_prefix_cons_iff]
                  exact hc
                · rw [slash_suffix_cons_iff c _ (by simp)]
                  by_cases hre : rest' = []
                  · subst hre
                    rw [slash_suffix_single_iff]
                    intro h
                    exact hne rfl
                  · rw [slash_suffix_cons_iff '/' _ hre]
                    exact hsuf
                · rw [dslash_infix_cons_iff c _ hc, dslash_infix_slash_cons_iff]
                  rintro (h1 | h1)
                  · exact hp h1
                  · exact hinf h1
              · rintro ⟨-, -, hsuf, hinf⟩
                rw [slash_suffix_cons_iff c _ (by simp)] at hsuf
                rw [dslash_infix_cons_iff c _ hc, dslash_infix_slash_cons_iff] at hinf
                refine ⟨?_, ?_, ?_, ?_⟩
                · intro h
                  subst h
                  exact hsuf ((slash_suffix_single_iff '/').mpr rfl)
                · intro h
                  exact hinf (Or.inl h)
                · intro h
                  rcases hre : rest' with _ | ⟨e, rest''⟩
                  · subst hre
                    exact hsuf ((slash_suffix_single_iff '/').mpr rfl)
                  · subst hre
                    rw [slash_suffix_cons_iff '/' _ (by simp)] at hsuf
                    exact hsuf h
                · intro h
                  exact hinf (Or.inr h)
            · rw [splitSlash_cons_ne c (d :: rest') hc,
                  splitSlash_cons_ne d rest' hd]
              simp only [List.headI, List.tail]
              have hlen : (d :: rest').length ≤ n := by
                simp only [List.length_cons] at hs ⊢
                omega
              have hih := ih (d :: rest') hlen
              rw [splitSlash_cons_ne d rest' hd] at hih
              unfold NoSlashPattern at hih ⊢
              constructor
              · intro h
                have htail : ∀ seg ∈ (splitSlash rest').tail, seg ≠ [] := by
                  intro seg hseg
                  exact h seg (List.mem_cons_of_mem _ hseg)
                have hrest : (d :: rest' : GoStr) ≠ [] ∧ ¬ ['/'] <+: (d :: rest')
                    ∧ ¬ ['/'] <:+ (d :: rest') ∧ ¬ ['/', '/'] <:+: (d :: rest') := by
                  apply hih.mp
                  intro seg hseg
                  rcases List.mem_cons.mp hseg with h1 | h1
                  · subst h1
                    simp
                  · exact htail seg h1
                refine ⟨by simp, ?_, ?_, ?_⟩
                · rw [slash_prefix_cons_iff]
                  exact hc
                · rw [slash_suffix_cons_iff c _ (by simp)]
                  exact hrest.2.2.1
                · rw [dslash_infix_cons_iff c _ hc]
                  exact hrest.2.2.2
              · rintro ⟨-, -, hsuf, hinf⟩
                rw [slash_suffix_cons_iff c _ (by simp)] at hsuf
                rw [dslash_infix_cons_iff c _ hc] at hinf
                have hrest := hih.mpr ⟨by simp,
                  by rw [slash_prefix_cons_iff]; exact hd, hsuf, hinf⟩
                intro seg hseg
                rcases List.mem_cons.mp hseg with h1 | h1
                · subst h1
                  simp
                · exact hrest seg (List.mem_cons_of_mem _ h1)
  exact main s.length s le_rfl

theorem singleton_infix_iff_mem (c : Char) (s : GoStr) : [c] <:+: s ↔ c ∈ s := by
  constructor
  · rintro ⟨t, u, rfl⟩
    simp
  · intro h
    rcases List.append_of_mem h with ⟨t, u, rfl⟩
    exact ⟨t, u, by simp⟩

/-- C6: the flat-name validator fails for every string that is empty,
contains `..`, contains `/` or `\`, or begins with `-`, and accepts every
other non-empty string. -/
theorem validateName_ok_iff (s : GoStr) :
    validateName s = .ok () ↔
      (s ≠ [] ∧ ¬ gs ".." <:+: s ∧ '/' ∉ s ∧ '\\' ∉ s ∧ ¬ gs "-" <+: s) := by
  have hchars : gs "/\\" = ['/', '\\'] := rfl
  by_cases h0 : s = []
  · subst h0
    simp [validateName]
  · unfold validateName
    rw [if_neg h0]
    by_cases hb : (containsStr s (gs "..") || containsAny s (gs "/\\")
        || startsWith s (gs "-")) = true
    · rw [if_pos hb]
      simp only [Bool.or_eq_true] at hb
      rw [containsStr_iff, containsAny_iff, startsWith_iff, hchars] at hb
      constructor
      · intro h
        exact absurd h (by simp)
      · rintro ⟨-, hdd, hs1, hs2, hdash⟩
        rcases hb with (h | h) | h
        · exact absurd h hdd
        · rcases h with ⟨c, hc, hmem⟩
          rcases List.mem_cons.mp hmem with h1 | h1
          · exact absurd (h1 ▸ hc) hs1
          · rcases List.mem_cons.mp h1 with h2 | h2
            · exact absurd (h2 ▸ hc) hs2
            · simp at h2
        · exact absurd h hdash
    · rw [if_neg hb]
      simp only [Bool.or_eq_true] at hb
      rw [containsStr_iff, containsAny_iff, startsWith_iff, hchars] at hb
      push_neg at hb
      rcases hb with ⟨⟨hdd, hany⟩, hdash⟩
      constructor
      · intro _
        refine ⟨h0, hdd, ?_, ?_, hdash⟩
        · intro h
          exact absurd (by simp) (hany '/' h)
        · intro h
          exact absurd (by simp) (hany '\\' h)
      · intro _
        rfl

/-- C7: the hierarchical-name validator (modelled from the spec, absent
from the provided sources) fails for every string that is empty, begins
with `-`, begins or ends with `/`, contains `//`, contains a `..` path
segment, or contains `\`, and accepts exactly the strings made of
non-empty `/`-separated segments with no `..` segment, no backslash and
no leading `-`. -/
theorem validateSecretName_ok_iff (s : GoStr) :
    validateSecretName s = .ok () ↔
      (s ≠ [] ∧ ¬ gs "-" <+: s ∧ '\\' ∉ s ∧
        ∀ seg ∈ splitSlash s, seg ≠ [] ∧ seg ≠ gs "..") := by
  have hslash : gs "/" = ['/'] := rfl
  have hdsl : gs "//" = ['/', '/'] := rfl
  have hbsl : gs "\\" = ['\\'] := rfl
  by_cases h0 : s = []
  · subst h0
    simp [validateSecretName]
  · unfold validateSecretName
    rw [if_neg h0]
    by_cases hb : (startsWith s (gs "-") || startsWith s (gs "/")
        || endsWith s (gs "/") || containsStr s (gs "//")
        || containsStr s (gs "\\") || (splitSlash s).contains (gs "..")) = true
    · rw [if_pos hb]
      simp only [Bool.or_eq_true] at hb
      rw [startsWith_iff, startsWith_iff, endsWith_iff, containsStr_iff,
        containsStr_iff, hslash, hdsl, hbsl] at hb
      constructor
      · intro h
        exact absurd h (by simp)
      · rintro ⟨-, hdash, hnb, hseg⟩
        have hpat : NoSlashPattern s := by
          rw [← splitSlash_all_ne_nil]
          intro seg hmem
          exact (hseg seg hmem).1
        rcases hpat with ⟨-, hp, hsuf, hinf⟩
        rcases hb with ((((h | h) | h) | h) | h) | h
        · exact absurd h hdash
        · exact absurd h hp
        · exact absurd h hsuf
        · exact absurd h hinf
        · exact absurd ((singleton_infix_iff_mem '\\' s).mp h) hnb
        · have hmem : gs ".." ∈ splitSlash s := (List.elem_iff).mp h
          exact absurd rfl (hseg (gs "..") hmem).2
    · rw [if_neg hb]
      simp only [Bool.or_eq_true] at hb
      rw [startsWith_iff, startsWith_iff, endsWith_iff, containsStr_iff,
        containsStr_iff, hslash, hdsl, hbsl] at hb
      push_neg at hb
      rcases hb with ⟨⟨⟨⟨⟨hdash, hp⟩, hsuf⟩, hinf⟩, hnb⟩, hdd⟩
      have hne : ∀ seg ∈ splitSlash s, seg ≠ [] := by
        rw [splitSlash_all_ne_nil]
        exact ⟨h0, hp, hsuf, hinf⟩
      constructor
      · intro _
        refine ⟨h0, hdash, ?_, ?_⟩
        · intro h
          exact hnb ((singleton_infix_iff_mem '\\' s).mpr h)
        · intro seg hmem
          refine ⟨hne seg hmem, ?_⟩
          intro h
          subst h
          exact hdd ((List.elem_iff).mpr hmem)
      · intro _
        rfl

/-- One stored secret: its plaintext value and the set of keys the
encrypted blob on disk is actually encrypted for (one entry per
`:pubkey enc packet:` line of `gpg --list-packets`). -/
structure Secret where
  value : GoStr
  recipients : List GoStr
deriving DecidableEq, Repr

/-- One vault's `pass` store directory: the `.gpg-id` recipient-list file
and the encrypted secret files keyed by hierarchical name. -/
structure PassStore where
  gpgid : List GoStr
  secrets : List (GoStr × Secret)
deriving DecidableEq, Repr

/-- The vault registry record (`config.VaultConfig`, loaded/saved by the
`internal/config` package): name, description, member list, timestamps. -/
structure VaultConfig where
  name : GoStr
  description : GoStr
  members : List GoStr
  createdAt : Nat
  updatedAt : Nat
deriving DecidableEq, Repr

/-- A vault directory: its registry record plus its backing store. -/
structure Vault where
  cfg : VaultConfig
  store : PassStore
deriving DecidableEq, Repr

/-- The secrets root on disk: whether the directory exists, the vault
directories under `vaults/`, and the key files under `keys/<email>.asc`. -/
structure Store where
  dirExists : Bool
  vaults : List (GoStr × Vault)
  keys : List GoStr
deriving DecidableEq, Repr

/-- The local GPG keyring (external to the repository): which keys are
present and which of those the keyring trusts. -/
structure Keyring where
  present : List GoStr
  trusted : List GoStr
deriving DecidableEq, Repr

/-- Full observable state: the secrets directory plus the local keyring. -/
structure World where
  fs : Store
  kr : Keyring
deriving DecidableEq, Repr

/-- Process configuration: the resolved acting principal (`GetUserEmail`),
a clock for `time.Now()`, and the inherited `PASSWORD_STORE_GPG_OPTS`. -/
structure Env where
  userEmail : GoStr
  now : Nat
  envGpgOpts : GoStr
deriving DecidableEq, Repr

def findVault (s : Store) (n : GoStr) : Option Vault :=
  (s.vaults.find? (fun p => p.1 == n)).map (fun p => p.2)

def setVault (s : Store) (n : GoStr) (v : Vault) : Store :=
  { s with vaults := s.vaults.map (fun p => if p.1 == n then (p.1, v) else p) }

def addVault (s : Store) (n : GoStr) (v : Vault) : Store :=
  { s with vaults := s.vaults ++ [(n, v)] }

def removeVault (s : Store) (n : GoStr) : Store :=
  { s with vaults := s.vaults.filter (fun p => !(p.1 == n)) }

def lookupSecret (st : PassStore) (n : GoStr) : Option Secret :=
  (st.secrets.find? (fun p => p.1 == n)).map (fun p => p.2)

/-- Embeds `gpg --import` of a stored key file `keys/<email>.asc`: makes
the key present in the keyring (without granting it any trust). -/
def importKeyToKeyring (kr : Keyring) (e : GoStr) : Keyring :=
  if kr.present.contains e then kr else { kr with present := kr.present ++ [e] }

/-- Embeds `GPG.KeyExists` (`internal/gpg/gpg.go`): `gpg --list-keys -- <email>`
exits 0 exactly when the key is present in the keyring. -/
def keyExists (kr : Keyring) (e : GoStr) : Bool := kr.present.contains e

/-- Embeds `Pass.run`'s environment construction (`internal/pass/pass.go`):
`PASSWORD_STORE_GPG_OPTS` is the inherited value with `--trust-model always`
appended (or exactly `--trust-model always` when nothing was inherited). -/
def gpgOptsEnvFor (existingOpts : GoStr) : GoStr :=
  if existingOpts = [] then gs "--trust-model always"
  else existingOpts ++ gs " " ++ gs "--trust-model always"

/-- Embeds `Pass.List`/`listDir` (`internal/pass/pass.go`): the names of
the stored secrets, skipping entries whose name (any path level) is
hidden, i.e. starts with `.` (this is what excludes `.gpg-id`). -/
def passList (st : PassStore) : List GoStr :=
  (st.secrets.map (fun p => p.1)).filter
    (fun n => (splitSlash n).all (fun seg => !(startsWith seg (gs "."))))

/-- The observable behaviour of the external `pass init` invocation: its
exit status, and the recipient set it actually writes into each
re-encrypted secret file.  Left abstract because the external tool is
out of scope and, per the spec, not to be trusted: the verification step
exists precisely because `reenc` may disagree with the requested ids. -/
structure PassTool where
  initExit : Keyring → GoStr → List GoStr → PassStore → Bool
  reenc : Keyring → GoStr → List GoStr → GoStr → Secret → List GoStr

/-- Effect of `pass init -- <ids...>` run through `Pass.run` with options
`opts`: on exit 0 every stored secret file is rewritten with the
recipients the tool chose; on non-zero exit the files are untouched. -/
def passInitRun (tool : PassTool) (kr : Keyring) (opts : GoStr) (ids : List GoStr)
    (st : PassStore) : PassStore × Bool :=
  if tool.initExit kr opts ids st then
    let reencrypted := st.secrets.map (fun p => (p.1, { p.2 with recipients := tool.reenc kr opts ids p.1 p.2 }))
    ({ st with secrets := reencrypted }, true)
  else (st, false)

/-- Embeds `Pass.VerifyEncryption` (`internal/pass/pass.go`): first checks
every expected GPG id with `gpg --list-keys <id>`, then counts the
`:pubkey enc packet:` lines of `gpg --list-packets` on the secret's file;
fails if the file is missing, has zero recipients, or the recipient count
differs from the expected count. -/
def VerifyEncryption (kr : Keyring) (st : PassStore) (secretName : GoStr)
    (expectedGPGIDs : List GoStr) : Except Err Unit :=
  match expectedGPGIDs.find? (fun id => !(keyExists kr id)) with
  | some id => .error (.gpgIdNotFoundInKeyring id)
  | none =>
    match lookupSecret st secretName with
    | none => .error .passError
    | some sec =>
      let recipientCount := sec.recipients.length
      if recipientCount = 0 then .error (.noRecipients secretName)
      else if recipientCount ≠ expectedGPGIDs.length then
        .error (.recipientCountMismatch secretName recipientCount expectedGPGIDs.length)
      else .ok ()

/-- Embeds `Pass.ReInit` (`internal/pass/pass.go`): write the new
`.gpg-id` file, run `pass init -- <ids...>` (through `Pass.run`, hence
with the trust-model override in the environment), then — when at least
one secret is stored — verify the first listed secret with
`VerifyEncryption`, wrapping its failure as the re-encryption
verification error. -/
def ReInit (tool : PassTool) (kr : Keyring) (envOpts : GoStr) (ids : List GoStr)
    (st : PassStore) : PassStore × Except Err Unit :=
  let st1 := { st with gpgid := ids }
  let r := passInitRun tool kr (gpgOptsEnvFor envOpts) ids st1
  if r.2 then
    match passList r.1 with
    | [] => (r.1, .ok ())
    | s0 :: _ =>
      match VerifyEncryption kr r.1 s0 ids with
      | .error e => (r.1, .error (.reencryptionVerificationFailed e))
      | .ok () => (r.1, .ok ())
  else (r.1, .error .passError)

/-- Embeds `Pass.Insert` (`pass insert --multiline --force -- <name>`):
creates or overwrites the named secret, encrypted for the store's current
`.gpg-id` recipients (healthy external insert). -/
def passInsert (st : PassStore) (n v : GoStr) : PassStore :=
  { st with secrets := (st.secrets.filter (fun p => !(p.1 == n)))
      ++ [(n, { value := v, recipients := st.gpgid })] }

/-- Embeds `Pass.Show` (`pass show -- <name>`): the decrypted value, or an
error when the secret does not exist. -/
def passShow (st : PassStore) (n : GoStr) : Except Err GoStr :=
  match lookupSecret st n with
  | none => .error .passError
  | some sec => .ok sec.value

/-- Embeds `Pass.Exists`: `Show` succeeded. -/
def passExists (st : PassStore) (n : GoStr) : Bool :=
  (passShow st n).isOk

/-- Embeds `Pass.Remove` (`pass rm --force -- <name>`). -/
def passRemove (st : PassStore) (n : GoStr) : PassStore × Except Err Unit :=
  match lookupSecret st n with
  | none => (st, .error .passError)
  | some _ => ({ st with secrets := st.secrets.filter (fun p => !(p.1 == n)) }, .ok ())

/-- Embeds `Pass.Move` (`pass mv --force -- <old> <new>`): renames,
overwriting any destination. -/
def passMove (st : PassStore) (old new : GoStr) : PassStore × Except Err Unit :=
  match lookupSecret st old with
  | none => (st, .error .passError)
  | some sec =>
    ({ st with secrets := (st.secrets.filter
        (fun p => !(p.1 == old) && !(p.1 == new))) ++ [(new, sec)] }, .ok ())

/-- Modelled from the spec: the external `pass`/GPG behaviour described in
§4.3 and the bug report — with `--trust-model always` in the GPG options,
encryption succeeds for every requested key that is present in the
keyring (trusted or not) and the blob carries exactly the requested
recipients; without the override, GPG in batch mode silently drops
untrusted keys while `pass` still reports success (the historical silent
re-encryption failure). -/
def goodPassTool : PassTool where
  initExit kr opts ids _ :=
    if containsStr opts (gs "--trust-model always") then
      ids.all (fun id => keyExists kr id)
    else true
  reenc kr opts ids _ _ :=
    if containsStr opts (gs "--trust-model always") then ids
    else ids.filter (fun id => kr.trusted.contains id)

/-- Embeds `hasVaultAccess` (`internal/cmd/vault.go`): `false` for an
empty email or a missing/unreadable vault config, otherwise a
case-insensitive (`strings.EqualFold`) membership test. -/
def hasVaultAccess (s : Store) (vaultName email : GoStr) : Bool :=
  if email == [] then false
  else
    match findVault s vaultName with
    | none => false
    | some v => v.cfg.members.any (fun m => eqFold m email)

/-- Oracle for the fallible filesystem steps of `runVaultCreate`
(`os.MkdirAll`, `config.SaveVaultConfig`): which of them succeed. -/
structure CreateOracle where
  mkdirVaultOk : Bool
  saveConfigOk : Bool
  mkdirStoreOk : Bool
deriving DecidableEq, Repr

/-- Embeds `runVaultCreate` (`internal/cmd/vault.go`): validate the name,
require the store and an email, refuse an existing vault, require the
creator's GPG key, create the vault directory, write the registry record,
create and `pass init` the backing store — removing the vault directory
again (`os.RemoveAll`) when any step after its creation fails. -/
def runVaultCreate (env : Env) (tool : PassTool) (oracle : CreateOracle) (w : World)
    (vaultName desc : GoStr) : World × Except Err Unit :=
  match validateName vaultName with
  | .error e => (w, .error e)
  | .ok () =>
    if !w.fs.dirExists then (w, .error .secretsDirNotFound)
    else if env.userEmail == [] then (w, .error .emailRequired)
    else
      match findVault w.fs vaultName with
      | some _ => (w, .error (.vaultExists vaultName))
      | none =>
        if !keyExists w.kr env.userEmail then (w, .error (.gpgKeyNotFound env.userEmail))
        else if !oracle.mkdirVaultOk then (w, .error .mkdirFailed)
        else if !oracle.saveConfigOk then (w, .error .saveConfigFailed)
        else if !oracle.mkdirStoreOk then (w, .error .mkdirFailed)
        else if tool.initExit w.kr (gpgOptsEnvFor env.envGpgOpts) [env.userEmail] { gpgid := [], secrets := [] } then
          let cfg : VaultConfig := { name := vaultName, description := desc, members := [env.userEmail], createdAt := env.now, updatedAt := env.now }
          let pst : PassStore := { gpgid := [env.userEmail], secrets := [] }
          ({ w with fs := addVault w.fs vaultName { cfg := cfg, store := pst } }, .ok ())
        else (w, .error .passError)

/-- Embeds `runVaultAddMember` (`internal/cmd/vault.go`): vault existence,
caller-access (case-sensitive `==` here), stored-key-file, and
not-already-a-member checks; then import the key, append the member,
persist the registry, and `ReInit` with the full updated member list,
wrapping a re-encryption failure for the caller. -/
def runVaultAddMember (env : Env) (tool : PassTool) (w : World)
    (vaultName memberEmail : GoStr) : World × Except Err Unit :=
  match findVault w.fs vaultName with
  | none => (w, .error (.vaultNotFound vaultName))
  | some v =>
    if env.userEmail != [] && !(v.cfg.members.contains env.userEmail) then
      (w, .error (.accessDenied vaultName))
    else if !(w.fs.keys.contains memberEmail) then (w, .error (.keyNotFound memberEmail))
    else if v.cfg.members.contains memberEmail then
      (w, .error (.alreadyMember memberEmail vaultName))
    else
      let kr1 := importKeyToKeyring w.kr memberEmail
      let members1 := v.cfg.members ++ [memberEmail]
      let cfg1 := { v.cfg with members := members1, updatedAt := env.now }
      let r := ReInit tool kr1 env.envGpgOpts members1 v.store
      let fs1 := setVault w.fs vaultName { cfg := cfg1, store := r.1 }
      match r.2 with
      | .error e => ({ fs := fs1, kr := kr1 }, .error (.reencryptFailed e))
      | .ok () => ({ fs := fs1, kr := kr1 }, .ok ())

/-- Embeds `runVaultRemoveMember` (`internal/cmd/vault.go`): vault
existence and caller-access checks, membership check, last-member guard
(all before any mutation); then remove the member, persist the registry,
and `ReInit` with the reduced list. -/
def runVaultRemoveMember (env : Env) (tool : PassTool) (w : World)
    (vaultName memberEmail : GoStr) : World × Except Err Unit :=
  match findVault w.fs vaultName with
  | none => (w, .error (.vaultNotFound vaultName))
  | some v =>
    if env.userEmail != [] && !(v.cfg.members.contains env.userEmail) then
      (w, .error (.accessDenied vaultName))
    else if !(v.cfg.members.contains memberEmail) then
      (w, .error (.notAMember memberEmail vaultName))
    else if v.cfg.members.length = 1 then (w, .error .cannotRemoveLastMember)
    else
      let members1 := v.cfg.members.erase memberEmail
      let cfg1 := { v.cfg with members := members1, updatedAt := env.now }
      let r := ReInit tool w.kr env.envGpgOpts members1 v.store
      let fs1 := setVault w.fs vaultName { cfg := cfg1, store := r.1 }
      match r.2 with
      | .error e => ({ w with fs := fs1 }, .error (.reencryptFailed e))
      | .ok () => ({ w with fs := fs1 }, .ok ())

/-- Embeds `runSync` (`internal/cmd/export.go`): validate the vault name,
require the store and the vault, check access via `hasVaultAccess`, then
`ReInit` with the current member list (no membership change) and persist
an updated timestamp on success. -/
def runSync (env : Env) (tool : PassTool) (w : World) (vaultName : GoStr) :
    World × Except Err Unit :=
  match validateName vaultName with
  | .error e => (w, .error e)
  | .ok () =>
    if !w.fs.dirExists then (w, .error .secretsDirNotFound)
    else
      match findVault w.fs vaultName with
      | none => (w, .error (.vaultNotFound vaultName))
      | some v =>
        if !(hasVaultAccess w.fs vaultName env.userEmail) && env.userEmail != [] then
          (w, .error (.accessDenied vaultName))
        else
          let r := ReInit tool w.kr env.envGpgOpts v.cfg.members v.store
          match r.2 with
          | .error e =>
            ({ w with fs := setVault w.fs vaultName { v with store := r.1 } },
              .error (.reencryptFailed e))
          | .ok () =>
            let cfg1 := { v.cfg with updatedAt := env.now }
            ({ w with fs := setVault w.fs vaultName { cfg := cfg1, store := r.1 } }, .ok ())

/-- Embeds `runList` (`internal/cmd/secrets.go`): store and vault
existence, access check, then the listing (output formatting elided). -/
def runList (env : Env) (w : World) (vaultName : GoStr) :
    World × Except Err (List GoStr) :=
  if !w.fs.dirExists then (w, .error .secretsDirNotFound)
  else
    match findVault w.fs vaultName with
    | none => (w, .error (.vaultNotFound vaultName))
    | some v =>
      if !(hasVaultAccess w.fs vaultName env.userEmail) && env.userEmail != [] then
        (w, .error (.accessDenied vaultName))
      else (w, .ok (passList v.store))

/-- Embeds `runGet` (`internal/cmd/secrets.go`): store and vault
existence, access check, secret existence, then `pass show`.  Note: no
validator is invoked on `secretName`. -/
def runGet (env : Env) (w : World) (vaultName secretName : GoStr) :
    World × Except Err GoStr :=
  if !w.fs.dirExists then (w, .error .secretsDirNotFound)
  else
    match findVault w.fs vaultName with
    | none => (w, .error (.vaultNotFound vaultName))
    | some v =>
      if !(hasVaultAccess w.fs vaultName env.userEmail) && env.userEmail != [] then
        (w, .error (.accessDenied vaultName))
      else if !(passExists v.store secretName) then
        (w, .error (.secretNotFound vaultName secretName))
      else (w, passShow v.store secretName)

/-- Embeds `runSet` (`internal/cmd/secrets.go`) with the value given as a
command-line argument (the stdin branch is elided): store and vault
existence, access check, non-empty value, then `pass insert`.  Note: no
validator is invoked on `secretName` before it reaches the store. -/
def runSet (env : Env) (w : World) (vaultName secretName value : GoStr) :
    World × Except Err Unit :=
  if !w.fs.dirExists then (w, .error .secretsDirNotFound)
  else
    match findVault w.fs vaultName with
    | none => (w, .error (.vaultNotFound vaultName))
    | some v =>
      if !(hasVaultAccess w.fs vaultName env.userEmail) && env.userEmail != [] then
        (w, .error (.accessDenied vaultName))
      else if value == [] then (w, .error .emptyValue)
      else
        let st1 := passInsert v.store secretName value
        ({ w with fs := setVault w.fs vaultName { v with store := st1 } }, .ok ())

/-- Embeds `runDelete` (`internal/cmd/secrets.go`): store and vault
existence, access check, `Confirm` (force flag or interactive answer),
then `pass rm`. -/
def runDelete (env : Env) (w : World) (vaultName secretName : GoStr)
    (force confirmAnswer : Bool) : World × Except Err Unit :=
  if !w.fs.dirExists then (w, .error .secretsDirNotFound)
  else
    match findVault w.fs vaultName with
    | none => (w, .error (.vaultNotFound vaultName))
    | some v =>
      if !(hasVaultAccess w.fs vaultName env.userEmail) && env.userEmail != [] then
        (w, .error (.accessDenied vaultName))
      else if !(force || confirmAnswer) then
        (w, .error (.deletionCancelled vaultName secretName))
      else
        let r := passRemove v.store secretName
        match r.2 with
        | .error e => ({ w with fs := setVault w.fs vaultName { v with store := r.1 } }, .error e)
        | .ok () => ({ w with fs := setVault w.fs vaultName { v with store := r.1 } }, .ok ())

/-- Embeds `runRename` (`internal/cmd/secrets.go`): store and vault
existence, access check, source existence, then `pass mv`. -/
def runRename (env : Env) (w : World) (vaultName oldName newName : GoStr) :
    World × Except Err Unit :=
  if !w.fs.dirExists then (w, .error .secretsDirNotFound)
  else
    match findVault w.fs vaultName with
    | none => (w, .error (.vaultNotFound vaultName))
    | some v =>
      if !(hasVaultAccess w.fs vaultName env.userEmail) && env.userEmail != [] then
        (w, .error (.accessDenied vaultName))
      else if !(passExists v.store oldName) then
        (w, .error (.secretNotFound vaultName oldName))
      else
        let r := passMove v.store oldName newName
        match r.2 with
        | .error e => ({ w with fs := setVault w.fs vaultName { v with store := r.1 } }, .error e)
        | .ok () => ({ w with fs := setVault w.fs vaultName { v with store := r.1 } }, .ok ())

/-- Embeds `runCopy` (`internal/cmd/secrets.go`): both vaults must exist
and grant access; read the source secret and insert it (optionally under
a new name) into the destination vault. -/
def runCopy (env : Env) (w : World) (srcVault secretName dstVault newName : GoStr) :
    World × Except Err Unit :=
  if !w.fs.dirExists then (w, .error .secretsDirNotFound)
  else
    match findVault w.fs srcVault with
    | none => (w, .error (.vaultNotFound srcVault))
    | some vs =>
      if !(hasVaultAccess w.fs srcVault env.userEmail) && env.userEmail != [] then
        (w, .error (.accessDenied srcVault))
      else
        match findVault w.fs dstVault with
        | none => (w, .error (.vaultNotFound dstVault))
        | some vd =>
          if !(hasVaultAccess w.fs dstVault env.userEmail) && env.userEmail != [] then
            (w, .error (.accessDenied dstVault))
          else if !(passExists vs.store secretName) then
            (w, .error (.secretNotFound srcVault secretName))
          else
            match passShow vs.store secretName with
            | .error e => (w, .error e)
            | .ok value =>
              let dstName := if newName != [] then newName else secretName
              let st1 := passInsert vd.store dstName value
              ({ w with fs := setVault w.fs dstVault { vd with store := st1 } }, .ok ())

/-- Embeds `runExport` (`internal/cmd/export.go`): validate the vault
name, store and vault existence, access check, then read every secret
(format rendering elided; secrets whose `Show` fails are skipped). -/
def runExport (env : Env) (w : World) (vaultName : GoStr) :
    World × Except Err (List (GoStr × GoStr)) :=
  match validateName vaultName with
  | .error e => (w, .error e)
  | .ok () =>
    if !w.fs.dirExists then (w, .error .secretsDirNotFound)
    else
      match findVault w.fs vaultName with
      | none => (w, .error (.vaultNotFound vaultName))
      | some v =>
        if !(hasVaultAccess w.fs vaultName env.userEmail) && env.userEmail != [] then
          (w, .error (.accessDenied vaultName))
        else
          let pairs := (passList v.store).filterMap
            (fun n => match passShow v.store n with
              | .error _ => none
              | .ok value => some (n, value))
          (w, .ok pairs)

/-- Argument list of `Pass.Init`/`Pass.ReInit`'s store invocation:
`pass init -- <ids...>` (`internal/pass/pass.go`). -/
def passInitArgv (gpgIDs : List GoStr) : List GoStr :=
  [gs "init", gs "--"] ++ gpgIDs

/-- Argument list of `Pass.Insert`: `pass insert --multiline --force -- <name>`. -/
def passInsertArgv (name : GoStr) : List GoStr :=
  [gs "insert", gs "--multiline", gs "--force", gs "--", name]

/-- Argument list of `Pass.Show`: `pass show -- <name>`. -/
def passShowArgv (name : GoStr) : List GoStr :=
  [gs "show", gs "--", name]

/-- Argument list of `Pass.Remove`: `pass rm --force -- <name>`. -/
def passRemoveArgv (name : GoStr) : List GoStr :=
  [gs "rm", gs "--force", gs "--", name]

/-- Argument list of `Pass.Move`: `pass mv --force -- <old> <new>`. -/
def passMoveArgv (oldName newName : GoStr) : List GoStr :=
  [gs "mv", gs "--force", gs "--", oldName, newName]

/-- Argument list of `Pass.Copy`: `pass cp --force -- <src> <dst>`. -/
def passCopyArgv (srcName dstName : GoStr) : List GoStr :=
  [gs "cp", gs "--force", gs "--", srcName, dstName]

/-- Argument list of `GPG.ExportPublicKey`: `gpg --armor --export -- <email>`. -/
def gpgExportArgv (email : GoStr) : List GoStr :=
  [gs "--armor", gs "--export", gs "--", email]

/-- Argument list of `GPG.ImportKey` (`internal/gpg/gpg.go`):
`gpg --import <keyPath>` — note: no `--` separator in the source. -/
def gpgImportArgv (keyPath : GoStr) : List GoStr :=
  [gs "--import", keyPath]

/-- Argument list of `GPG.KeyExists`: `gpg --list-keys -- <email>`. -/
def gpgKeyExistsArgv (email : GoStr) : List GoStr :=
  [gs "--list-keys", gs "--", email]

/-- Argument list of the per-id keyring check inside
`Pass.VerifyEncryption` (`internal/pass/pass.go`):
`gpg --list-keys <gpgID>` — note: no `--` separator in the source. -/
def verifyListKeysArgv (gpgID : GoStr) : List GoStr :=
  [gs "--list-keys", gpgID]

/-- Argument list of the packet dump inside `Pass.VerifyEncryption`:
`gpg --list-packets <secretPath>` — note: no `--` separator in the source. -/
def verifyListPacketsArgv (secretPath : GoStr) : List GoStr :=
  [gs "--list-packets", secretPath]

/-- Path resolution on `/`-separated segments: `..` pops a directory,
`.` and empty segments are no-ops (filesystem semantics of the paths the
commands build with `filepath.Join`). -/
def resolveSegs (segs : List GoStr) : List GoStr :=
  segs.foldl (fun acc seg =>
    if seg == gs ".." then acc.dropLast
    else if seg == gs "." || seg == [] then acc
    else acc ++ [seg]) []

/-- Modelled from the spec (§6 on-disk layout contract): the segments of a
vault's `pass` store directory, `<secrets-root>/vaults/<vault>/.password-store`
(`config.GetVaultDir` is in the `internal/config` package, absent from the
provided sources; the layout is fixed by the spec and by
`runVaultCreate`'s `filepath.Join(vaultDir, ".password-store")`). -/
def storeDirSegs (secretsDir vaultName : GoStr) : List GoStr :=
  [secretsDir, gs "vaults", vaultName, gs ".password-store"]

/-- Where the encrypted file for secret `name` of a vault ends up: the
store directory joined with the (unvalidated) hierarchical name, with
`..` segments resolved by the filesystem. -/
def secretFileSegs (secretsDir vaultName name : GoStr) : List GoStr :=
  resolveSegs (storeDirSegs secretsDir vaultName ++ splitSlash name)

/-- Embeds `runVaultDelete` (`internal/cmd/vault.go`): vault existence,
`--force` guard, then `os.RemoveAll` of the vault directory. -/
def runVaultDelete (w : World) (vaultName : GoStr) (force : Bool) :
    World × Except Err Unit :=
  match findVault w.fs vaultName with
  | none => (w, .error (.vaultNotFound vaultName))
  | some _ =>
    if !force then (w, .error (.forceRequired vaultName))
    else ({ w with fs := removeVault w.fs vaultName }, .ok ())

/-- The CLI operations, as the step alphabet for whole-lifecycle
invariants over arbitrary command sequences. -/
inductive Op
  | vaultCreate (oracle : CreateOracle) (name desc : GoStr)
  | vaultDelete (name : GoStr) (force : Bool)
  | addMember (vaultName memberEmail : GoStr)
  | removeMember (vaultName memberEmail : GoStr)
  | sync (vaultName : GoStr)
  | set (vaultName secretName value : GoStr)
  | get (vaultName secretName : GoStr)
  | del (vaultName secretName : GoStr) (force confirmAnswer : Bool)
  | rename (vaultName oldName newName : GoStr)
  | copy (srcVault secretName dstVault newName : GoStr)
  | listSecrets (vaultName : GoStr)
  | exportSecrets (vaultName : GoStr)

/-- The world reached by running one CLI operation (its error, if any, is
reported to the user and does not affect the on-disk state further). -/
def stepOp (env : Env) (tool : PassTool) (w : World) : Op → World
  | .vaultCreate oracle name desc => (runVaultCreate env tool oracle w name desc).1
  | .vaultDelete name force => (runVaultDelete w name force).1
  | .addMember vaultName memberEmail => (runVaultAddMember env tool w vaultName memberEmail).1
  | .removeMember vaultName memberEmail => (runVaultRemoveMember env tool w vaultName memberEmail).1
  | .sync vaultName => (runSync env tool w vaultName).1
  | .set vaultName secretName value => (runSet env w vaultName secretName value).1
  | .get vaultName secretName => (runGet env w vaultName secretName).1
  | .del vaultName secretName force confirmAnswer =>
      (runDelete env w vaultName secretName force confirmAnswer).1
  | .rename vaultName oldName newName => (runRename env w vaultName oldName newName).1
  | .copy srcVault secretName dstVault newName =>
      (runCopy env w srcVault secretName dstVault newName).1
  | .listSecrets vaultName => (runList env w vaultName).1
  | .exportSecrets vaultName => (runExport env w vaultName).1

/-- The structural invariant of §3: no vault's member list is empty. -/
def MembersNonempty (w : World) : Prop :=
  ∀ p ∈ w.fs.vaults, p.2.cfg.members ≠ []

theorem membersNonempty_setVault (w : World) (kr : Keyring) (n : GoStr) (v : Vault)
    (h : MembersNonempty w) (hv : v.cfg.members ≠ []) :
    MembersNonempty { fs := setVault w.fs n v, kr := kr } := by
  intro p hp
  simp only [setVault, List.mem_map] at hp
  rcases hp with ⟨q, hq, hqe⟩
  by_cases hqn : (q.1 == n) = true
  · rw [if_pos hqn] at hqe
    rw [← hqe]
    exact hv
  · rw [if_neg hqn] at hqe
    rw [← hqe]
    exact h q hq

theorem membersNonempty_addVault (w : World) (n : GoStr) (v : Vault)
    (h : MembersNonempty w) (hv : v.cfg.members ≠ []) :
    MembersNonempty { fs := addVault w.fs n v, kr := w.kr } := by
  intro p hp
  simp only [addVault, List.mem_append] at hp
  rcases hp with hp | hp
  · exact h p hp
  · simp at hp
    rw [hp]
    exact hv

theorem membersNonempty_removeVault (w : World) (n : GoStr)
    (h : MembersNonempty w) :
    MembersNonempty { fs := removeVault w.fs n, kr := w.kr } := by
  intro p hp
  simp only [removeVault, List.mem_filter] at hp
  exact h p hp.1

theorem findVault_mem (s : Store) (n : GoStr) (v : Vault) (h : findVault s n = some v) :
    ∃ p ∈ s.vaults, p.2 = v := by
  unfold findVault at h
  rcases hf : s.vaults.find? (fun p => p.1 == n) with _ | p
  · rw [hf] at h
    simp at h
  · rw [hf] at h
    simp at h
    exact ⟨p, List.mem_of_find?_eq_some hf, h⟩

theorem find_replace_aux (l : List (GoStr × Vault)) (n : GoStr) (v v0 : Vault)
    (h : (l.find? (fun p => p.1 == n)).map (fun p => p.2) = some v0) :
    ((l.map (fun p => if p.1 == n then (p.1, v) else p)).find?
      (fun p => p.1 == n)).map (fun p => p.2) = some v := by
  induction l with
  | nil => simp at h
  | cons q qs ih =>
    by_cases hq : (q.1 == n) = true
    · simp only [List.map_cons, if_pos hq]
      simp [List.find?, hq]
    · simp only [List.find?, hq] at h
      simp only [List.map_cons, if_neg hq]
      simp only [List.find?, hq]
      exact ih h

theorem findVault_setVault_of_found (s : Store) (n : GoStr) (v0 v : Vault)
    (h : findVault s n = some v0) :
    findVault (setVault s n v) n = some v := by
  unfold findVault at h
  unfold findVault setVault
  exact find_replace_aux s.vaults n v v0 h

theorem erase_ne_nil_of_contains (l : List GoStr) (a : GoStr)
    (hc : l.contains a = true) (hl : l.length ≠ 1) : l.erase a ≠ [] := by
  have hmem : a ∈ l := List.elem_iff.mp hc
  have hlen : (l.erase a).length = l.length - 1 := List.length_erase_of_mem hmem
  have hpos : 0 < l.length := List.length_pos.mpr (List.ne_nil_of_mem hmem)
  intro hnil
  rw [hnil] at hlen
  simp at hlen
  omega

theorem runVaultCreate_preserves (env : Env) (tool : PassTool) (oracle : CreateOracle)
    (w : World) (name desc : GoStr) (h : MembersNonempty w) :
    MembersNonempty (runVaultCreate env tool oracle w name desc).1 := by
  unfold runVaultCreate
  repeat' split
  all_goals try exact h
  dsimp only
  intro p hp
  simp only [addVault, List.mem_append] at hp
  rcases hp with hp | hp
  · exact h p hp
  · simp at hp
    rw [hp]
    simp

theorem runVaultDelete_preserves (w : World) (name : GoStr) (force : Bool)
    (h : MembersNonempty w) : MembersNonempty (runVaultDelete w name force).1 := by
  unfold runVaultDelete
  repeat' split
  all_goals try exact h
  exact membersNonempty_removeVault w name h

theorem runVaultAddMember_preserves (env : Env) (tool : PassTool) (w : World)
    (vaultName memberEmail : GoStr) (h : MembersNonempty w) :
    MembersNonempty (runVaultAddMember env tool w vaultName memberEmail).1 := by
  unfold runVaultAddMember
  split
  · exact h
  · split
    · exact h
    · split
      · exact h
      · split
        · exact h
        · dsimp only
          split
          · dsimp only
            apply membersNonempty_setVault _ _ _ _ h
            simp
          · dsimp only
            apply membersNonempty_setVault _ _ _ _ h
            simp

theorem runVaultRemoveMember_preserves (env : Env) (tool : PassTool) (w : World)
    (vaultName memberEmail : GoStr) (h : MembersNonempty w) :
    MembersNonempty (runVaultRemoveMember env tool w vaultName memberEmail).1 := by
  unfold runVaultRemoveMember
  split
  · exact h
  · rename_i v hfind
    split
    · exact h
    · split
      · exact h
      · rename_i hmemB
        split
        · exact h
        · rename_i hlenB
          dsimp only
          have hmem : v.cfg.members.contains memberEmail = true := by
            simpa using hmemB
          have hlen : v.cfg.members.length ≠ 1 := by
            simpa using hlenB
          split
          · dsimp only
            apply membersNonempty_setVault _ _ _ _ h
            exact erase_ne_nil_of_contains _ _ hmem hlen
          · dsimp only
            apply membersNonempty_setVault _ _ _ _ h
            exact erase_ne_nil_of_contains _ _ hmem hlen

theorem runSync_preserves (env : Env) (tool : PassTool) (w : World)
    (vaultName : GoStr) (h : MembersNonempty w) :
    MembersNonempty (runSync env tool w vaultName).1 := by
  unfold runSync
  split
  · exact h
  · split
    · exact h
    · split
      · exact h
      · rename_i v hfind
        split
        · exact h
        · dsimp only
          have hv : v.cfg.members ≠ [] := by
            rcases findVault_mem _ _ _ hfind with ⟨p, hp, hpv⟩
            exact hpv ▸ h p hp
          split
          · dsimp only
            apply membersNonempty_setVault _ _ _ _ h
            exact hv
          · dsimp only
            apply membersNonempty_setVault _ _ _ _ h
            exact hv

theorem runSet_preserves (env : Env) (w : World) (vaultName secretName value : GoStr)
    (h : MembersNonempty w) :
    MembersNonempty (runSet env w vaultName secretName value).1 := by
  unfold runSet
  split
  · exact h
  · split
    · exact h
    · rename_i v hfind
      split
      · exact h
      · split
        · exact h
        · dsimp only
          have hv : v.cfg.members ≠ [] := by
            rcases findVault_mem _ _ _ hfind with ⟨p, hp, hpv⟩
            exact hpv ▸ h p hp
          apply membersNonempty_setVault _ _ _ _ h
          exact hv

theorem runDelete_preserves (env : Env) (w : World) (vaultName secretName : GoStr)
    (force confirmAnswer : Bool) (h : MembersNonempty w) :
    MembersNonempty (runDelete env w vaultName secretName force confirmAnswer).1 := by
  unfold runDelete
  split
  · exact h
  · split
    · exact h
    · rename_i v hfind
      split
      · exact h
      · split
        · exact h
        · dsimp only
          have hv : v.cfg.members ≠ [] := by
            rcases findVault_mem _ _ _ hfind with ⟨p, hp, hpv⟩
            exact hpv ▸ h p hp
          split
          · dsimp only
            apply membersNonempty_setVault _ _ _ _ h
            exact hv
          · dsimp only
            apply membersNonempty_setVault _ _ _ _ h
            exact hv

theorem runRename_preserves (env : Env) (w : World) (vaultName oldName newName : GoStr)
    (h : MembersNonempty w) :
    MembersNonempty (runRename env w vaultName oldName newName).1 := by
  unfold runRename
  split
  · exact h
  · split
    · exact h
    · rename_i v hfind
      split
      · exact h
      · split
        · exact h
        · dsimp only
          have hv : v.cfg.members ≠ [] := by
            rcases findVault_mem _ _ _ hfind with ⟨p, hp, hpv⟩
            exact hpv ▸ h p hp
          split
          · dsimp only
            apply membersNonempty_setVault _ _ _ _ h
            exact hv
          · dsimp only
            apply membersNonempty_setVault _ _ _ _ h
            exact hv

theorem runCopy_preserves (env : Env) (w : World)
    (srcVault secretName dstVault newName : GoStr) (h : MembersNonempty w) :
    MembersNonempty (runCopy env w srcVault secretName dstVault newName).1 := by
  unfold runCopy
  split
  · exact h
  · split
    · exact h
    · split
      · exact h
      · split
        · exact h
        · rename_i vd hfindd
          split
          · exact h
          · split
            · exact h
            · dsimp only
              have hv : vd.cfg.members ≠ [] := by
                rcases findVault_mem _ _ _ hfindd with ⟨p, hp, hpv⟩
                exact hpv ▸ h p hp
              split
              · exact h
              · dsimp only
                apply membersNonempty_setVault _ _ _ _ h
                exact hv

theorem runGet_fst (env : Env) (w : World) (vaultName secretName : GoStr) :
    (runGet env w vaultName secretName).1 = w := by
  unfold runGet
  repeat' split
  all_goals rfl

theorem runList_fst (env : Env) (w : World) (vaultName : GoStr) :
    (runList env w vaultName).1 = w := by
  unfold runList
  repeat' split
  all_goals rfl

theorem runExport_fst (env : Env) (w : World) (vaultName : GoStr) :
    (runExport env w vaultName).1 = w := by
  unfold runExport
  repeat' split
  all_goals rfl

theorem stepOp_preserves (env : Env) (tool : PassTool) (w : World) (op : Op)
    (h : MembersNonempty w) : MembersNonempty (stepOp env tool w op) := by
  cases op with
  | vaultCreate oracle name desc => exact runVaultCreate_preserves env tool oracle w name desc h
  | vaultDelete name force => exact runVaultDelete_preserves w name force h
  | addMember vaultName memberEmail => exact runVaultAddMember_preserves env tool w vaultName memberEmail h
  | removeMember vaultName memberEmail => exact runVaultRemoveMember_preserves env tool w vaultName memberEmail h
  | sync vaultName => exact runSync_preserves env tool w vaultName h
  | set vaultName secretName value => exact runSet_preserves env w vaultName secretName value h
  | get vaultName secretName =>
    show MembersNonempty (runGet env w vaultName secretName).1
    rw [runGet_fst]
    exact h
  | del vaultName secretName force confirmAnswer => exact runDelete_preserves env w vaultName secretName force confirmAnswer h
  | rename vaultName oldName newName => exact runRename_preserves env w vaultName oldName newName h
  | copy srcVault secretName dstVault newName => exact runCopy_preserves env w srcVault secretName dstVault newName h
  | listSecrets vaultName =>
    show MembersNonempty (runList env w vaultName).1
    rw [runList_fst]
    exact h
  | exportSecrets vaultName =>
    show MembersNonempty (runExport env w vaultName).1
    rw [runExport_fst]
    exact h

theorem foldl_stepOp_preserves (env : Env) (tool : PassTool) (ops : List Op) :
    ∀ w : World, MembersNonempty w → MembersNonempty (ops.foldl (stepOp env tool) w) := by
  induction ops with
  | nil => intro w h; exact h
  | cons op rest ih =>
    intro w h
    exact ih (stepOp env tool w op) (stepOp_preserves env tool w op h)

/-- C4: for a vault whose member list has exactly one entry, removing that
sole member fails with the cannot-remove-last-member error before any
mutation (the world is returned unchanged); and no sequence of modelled
CLI operations ever produces a vault with an empty member list. -/
theorem removeLastMember_rejected (env : Env) (tool : PassTool) (w : World)
    (vaultName m : GoStr) (v : Vault)
    (hv : findVault w.fs vaultName = some v)
    (hm : v.cfg.members = [m])
    (hacc : env.userEmail = [] ∨ env.userEmail = m) :
    runVaultRemoveMember env tool w vaultName m = (w, .error .cannotRemoveLastMember) ∧
    ∀ (env2 : Env) (tool2 : PassTool) (w2 : World) (ops : List Op),
      MembersNonempty w2 → MembersNonempty (ops.foldl (stepOp env2 tool2) w2) := by
  constructor
  · have hguard : (env.userEmail != [] && !(v.cfg.members.contains env.userEmail)) = false := by
      rcases hacc with he | he
      · rw [he]
        simp
      · rw [he, hm]
        simp
    unfold runVaultRemoveMember
    rw [hv]
    dsimp only
    rw [hguard]
    simp only [hm]
    simp
  · intro env2 tool2 w2 ops h
    exact foldl_stepOp_preserves env2 tool2 ops w2 h

theorem validateName_error_shape (n : GoStr) (e : Err)
    (h : validateName n = .error e) : e = .nameEmpty ∨ e = .invalidName n := by
  unfold validateName at h
  split at h
  · injection h with h1
    exact Or.inl h1.symm
  · split at h
    · injection h with h1
      exact Or.inr h1.symm
    · exact absurd h (by simp)

theorem passRemove_error_shape (st : PassStore) (n : GoStr) (e : Err)
    (h : (passRemove st n).2 = .error e) : e = .passError := by
  unfold passRemove at h
  split at h
  · simp at h
    exact h.symm
  · simp at h

theorem passMove_error_shape (st : PassStore) (old new : GoStr) (e : Err)
    (h : (passMove st old new).2 = .error e) : e = .passError := by
  unfold passMove at h
  split at h
  · simp at h
    exact h.symm
  · simp at h

/-- C5: the access check is the case-insensitive membership test
`hasVaultAccess` against the vault's member list; each secret read
(`get`, `list`, `export`) and write (`set`, `delete`, `rename`) fails
closed with `AccessDenied` — returning the world unchanged, performing no
read or mutation — whenever the acting principal is non-empty and not a
case-insensitive member, and never fails with `AccessDenied` when the
acting principal is empty. -/
theorem accessGuard_spec (env : Env) (w : World) (vaultName : GoStr) (v : Vault)
    (hdir : w.fs.dirExists = true)
    (hv : findVault w.fs vaultName = some v) :
    (hasVaultAccess w.fs vaultName env.userEmail = true ↔
      (env.userEmail ≠ [] ∧ ∃ m ∈ v.cfg.members, eqFold m env.userEmail = true)) ∧
    (env.userEmail ≠ [] →
      (∀ m ∈ v.cfg.members, eqFold m env.userEmail = false) →
      ∀ secretName value oldName newName : GoStr, ∀ force confirmAnswer : Bool,
        runGet env w vaultName secretName = (w, .error (.accessDenied vaultName)) ∧
        runList env w vaultName = (w, .error (.accessDenied vaultName)) ∧
        (validateName vaultName = .ok () →
          runExport env w vaultName = (w, .error (.accessDenied vaultName))) ∧
        runSet env w vaultName secretName value = (w, .error (.accessDenied vaultName)) ∧
        runDelete env w vaultName secretName force confirmAnswer = (w, .error (.accessDenied vaultName)) ∧
        runRename env w vaultName oldName newName = (w, .error (.accessDenied vaultName))) ∧
    (env.userEmail = [] →
      ∀ secretName value oldName newName : GoStr, ∀ force confirmAnswer : Bool,
        (runGet env w vaultName secretName).2 ≠ .error (.accessDenied vaultName) ∧
        (runList env w vaultName).2 ≠ .error (.accessDenied vaultName) ∧
        (runExport env w vaultName).2 ≠ .error (.accessDenied vaultName) ∧
        (runSet env w vaultName secretName value).2 ≠ .error (.accessDenied vaultName) ∧
        (runDelete env w vaultName secretName force confirmAnswer).2 ≠ .error (.accessDenied vaultName) ∧
        (runRename env w vaultName oldName newName).2 ≠ .error (.accessDenied vaultName)) := by
  have hiff : hasVaultAccess w.fs vaultName env.userEmail = true ↔
      (env.userEmail ≠ [] ∧ ∃ m ∈ v.cfg.members, eqFold m env.userEmail = true) := by
    unfold hasVaultAccess
    by_cases he : env.userEmail = []
    · rw [he]
      simp
    · have heb : (env.userEmail == ([] : GoStr)) = false := by
        simpa using he
      rw [heb]
      simp only [Bool.false_eq_true, if_false]
      rw [hv]
      rw [List.any_eq_true]
      constructor
      · rintro ⟨m, hm, hf⟩
        exact ⟨he, m, hm, hf⟩
      · rintro ⟨-, m, hm, hf⟩
        exact ⟨m, hm, hf⟩
  refine ⟨hiff, ?_, ?_⟩
  · intro hne hnomem secretName value oldName newName force confirmAnswer
    have hacc : hasVaultAccess w.fs vaultName env.userEmail = false := by
      rcases hb : hasVaultAccess w.fs vaultName env.userEmail with _ | _
      · rfl
      · exfalso
        rcases hiff.mp hb with ⟨-, m, hm, hf⟩
        rw [hnomem m hm] at hf
        exact Bool.false_ne_true hf
    have hguard : (!(hasVaultAccess w.fs vaultName env.userEmail)
        && env.userEmail != []) = true := by
      rw [hacc]
      have : (env.userEmail == ([] : GoStr)) = false := by simpa using hne
      rw [Bool.not_false, Bool.true_and]
      simpa using this
    refine ⟨?_, ?_, ?_, ?_, ?_, ?_⟩
    · unfold runGet
      rw [hdir, hv]
      simp only [Bool.not_true, Bool.false_eq_true, if_false, hguard, if_true]
    · unfold runList
      rw [hdir, hv]
      simp only [Bool.not_true, Bool.false_eq_true, if_false, hguard, if_true]
    · intro hvn
      unfold runExport
      rw [hvn, hdir, hv]
      simp only [Bool.not_true, Bool.false_eq_true, if_false, hguard, if_true]
    · unfold runSet
      rw [hdir, hv]
      simp only [Bool.not_true, Bool.false_eq_true, if_false, hguard, if_true]
    · unfold runDelete
      rw [hdir, hv]
      simp only [Bool.not_true, Bool.false_eq_true, if_false, hguard, if_true]
    · unfold runRename
      rw [hdir, hv]
      simp only [Bool.not_true, Bool.false_eq_true, if_false, hguard, if_true]
  · intro he secretName value oldName newName force confirmAnswer
    have hguard : (!(hasVaultAccess w.fs vaultName env.userEmail)
        && env.userEmail != []) = false := by
      rw [he]
      simp
    refine ⟨?_, ?_, ?_, ?_, ?_, ?_⟩
    · unfold runGet
      rw [hdir, hv]
      simp only [Bool.not_true, Bool.false_eq_true, if_false, hguard]
      split
      · simp
      · unfold passShow
        split
        · simp
        · simp
    · unfold runList
      rw [hdir, hv]
      simp only [Bool.not_true, Bool.false_eq_true, if_false, hguard]
      simp
    · unfold runExport
      split
      · rename_i e heq
        simp
        rcases validateName_error_shape _ _ heq with h1 | h1 <;> simp [h1]
      · rw [hdir, hv]
        simp only [Bool.not_true, Bool.false_eq_true, if_false, hguard]
        simp
    · unfold runSet
      rw [hdir, hv]
      simp only [Bool.not_true, Bool.false_eq_true, if_false, hguard]
      split
      · simp
      · simp
    · unfold runDelete
      rw [hdir, hv]
      simp only [Bool.not_true, Bool.false_eq_true, if_false, hguard]
      split
      · simp
      · split
        · rename_i e heq
          simp
          rw [passRemove_error_shape _ _ _ heq]
          simp
        · simp
    · unfold runRename
      rw [hdir, hv]
      simp only [Bool.not_true, Bool.false_eq_true, if_false, hguard]
      split
      · simp
      · split
        · rename_i e heq
          simp
          rw [passMove_error_shape _ _ _ _ heq]
          simp
        · simp

theorem vaultCreate_atomic (env : Env) (tool : PassTool) (oracle : CreateOracle)
    (w : World) (vaultName desc : GoStr)
    (hvn : validateName vaultName = .ok ())
    (hdir : w.fs.dirExists = true)
    (hemail : env.userEmail ≠ [])
    (habsent : findVault w.fs vaultName = none)
    (hkey : keyExists w.kr env.userEmail = true)
    (hmk : oracle.mkdirVaultOk = true)
    (hfail : oracle.saveConfigOk = false ∨ oracle.mkdirStoreOk = false ∨
      tool.initExit w.kr (gpgOptsEnvFor env.envGpgOpts) [env.userEmail]
        { gpgid := [], secrets := [] } = false) :
    (runVaultCreate env tool oracle w vaultName desc).1 = w ∧
    (∃ e, (runVaultCreate env tool oracle w vaultName desc).2 = .error e) ∧
    ∀ tool2 : PassTool,
      tool2.initExit w.kr (gpgOptsEnvFor env.envGpgOpts) [env.userEmail]
        { gpgid := [], secrets := [] } = true →
      (runVaultCreate env tool2
        { mkdirVaultOk := true, saveConfigOk := true, mkdirStoreOk := true }
        (runVaultCreate env tool oracle w vaultName desc).1 vaultName desc).2 = .ok () := by
  have hb2 : (env.userEmail == ([] : GoStr)) = false := by simpa using hemail
  have hfailed : ∃ e, runVaultCreate env tool oracle w vaultName desc = (w, .error e) := by
    unfold runVaultCreate
    rw [hvn]
    try dsimp only
    rw [hdir, hb2, habsent]
    try dsimp only
    rw [hkey, hmk]
    try dsimp only
    rcases hfail with hf | hf | hf
    · rw [hf]
      exact ⟨.saveConfigFailed, rfl⟩
    · rcases hsv : oracle.saveConfigOk with _ | _
      · exact ⟨.saveConfigFailed, rfl⟩
      · rw [hf]
        exact ⟨.mkdirFailed, rfl⟩
    · rcases hsv : oracle.saveConfigOk with _ | _
      · exact ⟨.saveConfigFailed, rfl⟩
      · rcases hms : oracle.mkdirStoreOk with _ | _
        · exact ⟨.mkdirFailed, rfl⟩
        · rw [hf]
          exact ⟨.passError, rfl⟩
  rcases hfailed with ⟨e, he⟩
  refine ⟨by rw [he], ⟨e, by rw [he]⟩, ?_⟩
  intro tool2 hexit2
  rw [he]
  try dsimp only
  unfold runVaultCreate
  rw [hvn]
  try dsimp only
  rw [hdir, hb2, habsent]
  try dsimp only
  rw [hkey]
  try dsimp only
  rw [hexit2]
  rfl

/-- Concrete fixture: the principal alice. -/
def aliceStr : GoStr := gs "alice@example.com"

/-- Concrete fixture: the principal bob (key present but untrusted). -/
def bobStr : GoStr := gs "bob@example.com"

/-- Concrete fixture: the non-member carol, in mixed case to exercise the
case-insensitive membership test. -/
def carolStr : GoStr := gs "Carol@Example.com"

/-- Concrete fixture: the vault name `dev`. -/
def devStr : GoStr := gs "dev"

/-- Concrete fixture: the secret path `db/password`. -/
def dbStr : GoStr := gs "db/password"

/-- Concrete fixture: vault `dev`, sole member alice, one stored secret
encrypted for alice. -/
def fixtureVault : Vault where
  cfg := { name := devStr, description := [], members := [aliceStr], createdAt := 0, updatedAt := 0 }
  store := { gpgid := [aliceStr], secrets := [(dbStr, { value := gs "p@ss", recipients := [aliceStr] })] }

/-- Concrete fixture: an initialized secrets root holding `dev`, with key
files for alice and bob; alice's key is trusted, bob's merely present. -/
def fixtureWorld : World where
  fs := { dirExists := true, vaults := [(devStr, fixtureVault)], keys := [aliceStr, bobStr] }
  kr := { present := [aliceStr, bobStr], trusted := [aliceStr] }

/-- Concrete fixture: alice acting, no inherited GPG options. -/
def aliceEnv : Env := { userEmail := aliceStr, now := 5, envGpgOpts := [] }

/-- Concrete fixture: carol acting (not a member of `dev`). -/
def carolEnv : Env := { userEmail := carolStr, now := 5, envGpgOpts := [] }

/-- Concrete fixture: an external `pass` whose `init` always exits non-zero. -/
def failingInitTool : PassTool where
  initExit _ _ _ _ := false
  reenc _ _ ids _ _ := ids

/-- Concrete fixture: the all-good creation oracle. -/
def okOracle : CreateOracle :=
  { mkdirVaultOk := true, saveConfigOk := true, mkdirStoreOk := true }

/-- Witness for C4 at the one-member vault `dev`: removing alice is
rejected with the world unchanged. -/
theorem removeLastMember_rejected_witness :
    runVaultRemoveMember aliceEnv goodPassTool fixtureWorld devStr aliceStr
      = (fixtureWorld, .error .cannotRemoveLastMember) :=
  (removeLastMember_rejected aliceEnv goodPassTool fixtureWorld devStr aliceStr
    fixtureVault (by decide) (by decide) (Or.inr (by decide))).1

/-- Witness for C5: carol — not a member of `dev`, spelled in a different
case — is denied `get` with the world unchanged. -/
theorem accessGuard_spec_witness :
    runGet carolEnv fixtureWorld devStr dbStr
      = (fixtureWorld, .error (.accessDenied devStr)) :=
  ((accessGuard_spec carolEnv fixtureWorld devStr fixtureVault (by decide)
    (by decide)).2.1 (by decide) (by decide) dbStr (gs "x") dbStr dbStr true true).1

/-- Witness for C10: a create of `staging` whose `pass init` fails leaves
the world unchanged, and the immediately retried create succeeds. -/
theorem vaultCreate_atomic_witness :
    (runVaultCreate aliceEnv failingInitTool okOracle fixtureWorld (gs "staging") []).1
        = fixtureWorld ∧
    (runVaultCreate aliceEnv goodPassTool okOracle
      (runVaultCreate aliceEnv failingInitTool okOracle fixtureWorld (gs "staging") []).1
      (gs "staging") []).2 = .ok () := by
  have h := vaultCreate_atomic aliceEnv failingInitTool okOracle fixtureWorld
    (gs "staging") [] (by decide) (by decide) (by decide) (by decide) (by decide)
    (by decide) (Or.inr (Or.inr (by decide)))
  exact ⟨h.1, h.2.2 goodPassTool (by decide)⟩

/-- C3 (evidence of the code bug): `runSet` invokes no validator on the
secret name — `set dev "../escape" "x"` succeeds and stores a secret
named `../escape`, whose file resolves outside the vault's
`.password-store` directory, even though `validateSecretName` rejects
exactly that name with the invalid-identifier error the spec demands. -/
theorem runSet_traversal_unchecked :
    validateSecretName (gs "../escape")
        = .error (.invalidSecretName (gs "../escape")) ∧
    (runSet aliceEnv fixtureWorld devStr (gs "../escape") (gs "x")).2 = .ok () ∧
    ((findVault (runSet aliceEnv fixtureWorld devStr (gs "../escape") (gs "x")).1.fs
        devStr).map (fun v => lookupSecret v.store (gs "../escape")))
      = some (some { value := gs "x", recipients := [aliceStr] }) ∧
    ¬ storeDirSegs (gs ".secrets") devStr
        <+: secretFileSegs (gs ".secrets") devStr (gs "../escape") := by
  refine ⟨by decide, by decide, by decide, by decide⟩

/-- C8 (evidence of the code bug): the per-id `gpg --list-keys` check
inside `Pass.VerifyEncryption` and `GPG.ImportKey`'s `gpg --import` pass
user-influenced positional arguments with no `--` end-of-options marker —
a member email beginning with `-` lands in the argument list flag-shaped
with nothing separating it from the flags (contrast `Pass.Insert`, which
does place the marker). -/
theorem gpg_argv_missing_separator :
    verifyListKeysArgv (gs "-evil@example.com")
        = [gs "--list-keys", gs "-evil@example.com"] ∧
    gs "--" ∉ verifyListKeysArgv (gs "-evil@example.com") ∧
    startsWith (gs "-evil@example.com") (gs "-") = true ∧
    gs "--" ∉ gpgImportArgv (gs ".secrets/keys/-evil@example.com.asc") ∧
    gs "--" ∉ verifyListPacketsArgv (gs ".secrets/vaults/dev/.password-store/x.gpg") ∧
    gs "--" ∈ passInsertArgv (gs "-evil-name") := by
  refine ⟨by decide, by decide, by decide, by decide, by decide, by decide⟩

theorem VerifyEncryption_ok (kr : Keyring) (st : PassStore) (n : GoStr)
    (ids : List GoStr) (h : VerifyEncryption kr st n ids = .ok ()) :
    ∃ sec, lookupSecret st n = some sec ∧ sec.recipients.length = ids.length := by
  unfold VerifyEncryption at h
  split at h
  · exact absurd h (by simp)
  · split at h
    · exact absurd h (by simp)
    · rename_i sec hsec
      dsimp only at h
      split at h
      · exact absurd h (by simp)
      · split at h
        · exact absurd h (by simp)
        · rename_i hne
          refine ⟨sec, hsec, ?_⟩
          omega

theorem ReInit_ok_count (tool : PassTool) (kr : Keyring) (envOpts : GoStr)
    (ids : List GoStr) (st st2 : PassStore)
    (h : ReInit tool kr envOpts ids st = (st2, .ok ()))
    (s0 : GoStr) (rest : List GoStr) (hlist : passList st2 = s0 :: rest) :
    ∃ sec, lookupSecret st2 s0 = some sec ∧ sec.recipients.length = ids.length := by
  unfold ReInit at h
  dsimp only at h
  split at h
  · split at h
    · rename_i hnil
      injection h with h1 h2
      rw [h1] at hnil
      rw [hnil] at hlist
      exact absurd hlist (by simp)
    · rename_i s0' rest' hcons
      split at h
      · exact absurd h (by simp)
      · rename_i u hver
        injection h with h1 h2
        rw [h1] at hcons hver
        rw [hcons] at hlist
        injection hlist with h3 h4
        rw [h3] at hver
        exact VerifyEncryption_ok kr st2 s0 ids hver
  · exact absurd h (by simp)

theorem ReInit_mismatch_error (tool : PassTool) (kr : Keyring) (envOpts : GoStr)
    (ids : List GoStr) (st : PassStore)
    (hexit : (passInitRun tool kr (gpgOptsEnvFor envOpts) ids
      { st with gpgid := ids }).2 = true)
    (s0 : GoStr) (rest : List GoStr)
    (hlist : passList (passInitRun tool kr (gpgOptsEnvFor envOpts) ids
      { st with gpgid := ids }).1 = s0 :: rest)
    (sec : Secret)
    (hsec : lookupSecret (passInitRun tool kr (gpgOptsEnvFor envOpts) ids
      { st with gpgid := ids }).1 s0 = some sec)
    (hmm : sec.recipients.length ≠ ids.length) :
    ∃ e, (ReInit tool kr envOpts ids st).2
      = .error (.reencryptionVerificationFailed e) := by
  have hver : ∀ u, VerifyEncryption kr (passInitRun tool kr (gpgOptsEnvFor envOpts) ids
      { st with gpgid := ids }).1 s0 ids ≠ .ok u := by
    intro u hok
    rcases VerifyEncryption_ok _ _ _ _ hok with ⟨sec2, hsec2, hlen2⟩
    rw [hsec] at hsec2
    injection hsec2 with hs
    rw [← hs] at hlen2
    exact hmm hlen2
  unfold ReInit
  dsimp only
  rw [if_pos hexit]
  rw [hlist]
  dsimp only
  split
  · rename_i e hv
    exact ⟨e, rfl⟩
  · rename_i hv
    exact absurd hv (hver ())

theorem addMember_ok_inv (env : Env) (tool : PassTool) (w : World)
    (vaultName memberEmail : GoStr) (w2 : World)
    (h : runVaultAddMember env tool w vaultName memberEmail = (w2, .ok ())) :
    ∃ v st2,
      findVault w.fs vaultName = some v ∧
      ReInit tool (importKeyToKeyring w.kr memberEmail) env.envGpgOpts
        (v.cfg.members ++ [memberEmail]) v.store = (st2, .ok ()) ∧
      findVault w2.fs vaultName = some
        { cfg := { v.cfg with members := v.cfg.members ++ [memberEmail], updatedAt := env.now },
          store := st2 } := by
  unfold runVaultAddMember at h
  split at h
  · exact absurd h (by simp)
  · rename_i v hfind
    split at h
    · exact absurd h (by simp)
    · split at h
      · exact absurd h (by simp)
      · split at h
        · exact absurd h (by simp)
        · dsimp only at h
          split at h
          · exact absurd h (by simp)
          · rename_i heq
            injection h with h1 h2
            refine ⟨v, (ReInit tool (importKeyToKeyring w.kr memberEmail) env.envGpgOpts
              (v.cfg.members ++ [memberEmail]) v.store).1, hfind, ?_, ?_⟩
            · rw [← heq]
            · rw [← h1]
              exact findVault_setVault_of_found w.fs vaultName v _ hfind

theorem removeMember_ok_inv (env : Env) (tool : PassTool) (w : World)
    (vaultName memberEmail : GoStr) (w2 : World)
    (h : runVaultRemoveMember env tool w vaultName memberEmail = (w2, .ok ())) :
    ∃ v st2,
      findVault w.fs vaultName = some v ∧
      ReInit tool w.kr env.envGpgOpts (v.cfg.members.erase memberEmail) v.store
        = (st2, .ok ()) ∧
      findVault w2.fs vaultName = some
        { cfg := { v.cfg with members := v.cfg.members.erase memberEmail, updatedAt := env.now }, store := st2 } := by
  unfold runVaultRemoveMember at h
  split at h
  · exact absurd h (by simp)
  · rename_i v hfind
    split at h
    · exact absurd h (by simp)
    · split at h
      · exact absurd h (by simp)
      · split at h
        · exact absurd h (by simp)
        · dsimp only at h
          split at h
          · exact absurd h (by simp)
          · rename_i heq
            injection h with h1 h2
            refine ⟨v, (ReInit tool w.kr env.envGpgOpts
              (v.cfg.members.erase memberEmail) v.store).1, hfind, ?_, ?_⟩
            · rw [← heq]
            · rw [← h1]
              exact findVault_setVault_of_found w.fs vaultName v _ hfind

theorem sync_ok_inv (env : Env) (tool : PassTool) (w : World)
    (vaultName : GoStr) (w2 : World)
    (h : runSync env tool w vaultName = (w2, .ok ())) :
    ∃ v st2,
      findVault w.fs vaultName = some v ∧
      ReInit tool w.kr env.envGpgOpts v.cfg.members v.store = (st2, .ok ()) ∧
      findVault w2.fs vaultName = some
        { cfg := { v.cfg with updatedAt := env.now }, store := st2 } := by
  unfold runSync at h
  split at h
  · exact absurd h (by simp)
  · split at h
    · exact absurd h (by simp)
    · split at h
      · exact absurd h (by simp)
      · rename_i v hfind
        split at h
        · exact absurd h (by simp)
        · dsimp only at h
          split at h
          · exact absurd h (by simp)
          · rename_i heq
            injection h with h1 h2
            refine ⟨v, (ReInit tool w.kr env.envGpgOpts v.cfg.members v.store).1,
              hfind, ?_, ?_⟩
            · rw [← heq]
            · rw [← h1]
              exact findVault_setVault_of_found w.fs vaultName v _ hfind

theorem addMember_mismatch_error (env : Env) (tool : PassTool) (w : World)
    (vaultName memberEmail : GoStr) (v : Vault)
    (hfind : findVault w.fs vaultName = some v)
    (hacc : (env.userEmail != [] && !(v.cfg.members.contains env.userEmail)) = false)
    (hkey : w.fs.keys.contains memberEmail = true)
    (hnot : v.cfg.members.contains memberEmail = false)
    (s0 : GoStr) (rest : List GoStr) (sec : Secret)
    (hexit : (passInitRun tool (importKeyToKeyring w.kr memberEmail)
      (gpgOptsEnvFor env.envGpgOpts) (v.cfg.members ++ [memberEmail])
      { v.store with gpgid := v.cfg.members ++ [memberEmail] }).2 = true)
    (hlist : passList (passInitRun tool (importKeyToKeyring w.kr memberEmail)
      (gpgOptsEnvFor env.envGpgOpts) (v.cfg.members ++ [memberEmail])
      { v.store with gpgid := v.cfg.members ++ [memberEmail] }).1 = s0 :: rest)
    (hsec : lookupSecret (passInitRun tool (importKeyToKeyring w.kr memberEmail)
      (gpgOptsEnvFor env.envGpgOpts) (v.cfg.members ++ [memberEmail])
      { v.store with gpgid := v.cfg.members ++ [memberEmail] }).1 s0 = some sec)
    (hmm : sec.recipients.length ≠ (v.cfg.members ++ [memberEmail]).length) :
    ∃ e, (runVaultAddMember env tool w vaultName memberEmail).2
      = .error (.reencryptFailed (.reencryptionVerificationFailed e)) := by
  rcases ReInit_mismatch_error tool (importKeyToKeyring w.kr memberEmail)
    env.envGpgOpts (v.cfg.members ++ [memberEmail]) v.store hexit s0 rest hlist
    sec hsec hmm with ⟨e, he⟩
  refine ⟨e, ?_⟩
  unfold runVaultAddMember
  rw [hfind]
  dsimp only
  simp only [hacc, hkey, hnot, Bool.not_true, Bool.false_eq_true, if_false]
  rw [he]

theorem removeMember_mismatch_error (env : Env) (tool : PassTool) (w : World)
    (vaultName memberEmail : GoStr) (v : Vault)
    (hfind : findVault w.fs vaultName = some v)
    (hacc : (env.userEmail != [] && !(v.cfg.members.contains env.userEmail)) = false)
    (hmem : v.cfg.members.contains memberEmail = true)
    (hlen : v.cfg.members.length ≠ 1)
    (s0 : GoStr) (rest : List GoStr) (sec : Secret)
    (hexit : (passInitRun tool w.kr (gpgOptsEnvFor env.envGpgOpts)
      (v.cfg.members.erase memberEmail)
      { v.store with gpgid := v.cfg.members.erase memberEmail }).2 = true)
    (hlist : passList (passInitRun tool w.kr (gpgOptsEnvFor env.envGpgOpts)
      (v.cfg.members.erase memberEmail)
      { v.store with gpgid := v.cfg.members.erase memberEmail }).1 = s0 :: rest)
    (hsec : lookupSecret (passInitRun tool w.kr (gpgOptsEnvFor env.envGpgOpts)
      (v.cfg.members.erase memberEmail)
      { v.store with gpgid := v.cfg.members.erase memberEmail }).1 s0 = some sec)
    (hmm : sec.recipients.length ≠ (v.cfg.members.erase memberEmail).length) :
    ∃ e, (runVaultRemoveMember env tool w vaultName memberEmail).2
      = .error (.reencryptFailed (.reencryptionVerificationFailed e)) := by
  rcases ReInit_mismatch_error tool w.kr env.envGpgOpts
    (v.cfg.members.erase memberEmail) v.store hexit s0 rest hlist
    sec hsec hmm with ⟨e, he⟩
  refine ⟨e, ?_⟩
  unfold runVaultRemoveMember
  rw [hfind]
  dsimp only
  simp only [hacc, hmem, Bool.not_true, Bool.false_eq_true, if_false, hlen]
  rw [he]

theorem sync_mismatch_error (env : Env) (tool : PassTool) (w : World)
    (vaultName : GoStr) (v : Vault)
    (hvn : validateName vaultName = .ok ())
    (hdir : w.fs.dirExists = true)
    (hfind : findVault w.fs vaultName = some v)
    (hacc : (!(hasVaultAccess w.fs vaultName env.userEmail)
      && env.userEmail != []) = false)
    (s0 : GoStr) (rest : List GoStr) (sec : Secret)
    (hexit : (passInitRun tool w.kr (gpgOptsEnvFor env.envGpgOpts)
      v.cfg.members { v.store with gpgid := v.cfg.members }).2 = true)
    (hlist : passList (passInitRun tool w.kr (gpgOptsEnvFor env.envGpgOpts)
      v.cfg.members { v.store with gpgid := v.cfg.members }).1 = s0 :: rest)
    (hsec : lookupSecret (passInitRun tool w.kr (gpgOptsEnvFor env.envGpgOpts)
      v.cfg.members { v.store with gpgid := v.cfg.members }).1 s0 = some sec)
    (hmm : sec.recipients.length ≠ v.cfg.members.length) :
    ∃ e, (runSync env tool w vaultName).2
      = .error (.reencryptFailed (.reencryptionVerificationFailed e)) := by
  rcases ReInit_mismatch_error tool w.kr env.envGpgOpts
    v.cfg.members v.store hexit s0 rest hlist sec hsec hmm with ⟨e, he⟩
  refine ⟨e, ?_⟩
  unfold runSync
  rw [hvn]
  dsimp only
  rw [hdir, hfind]
  dsimp only
  simp only [hacc, Bool.not_true, Bool.false_eq_true, if_false]
  rw [he]

/-- C1: for any behaviour of the external tool, AddMember, RemoveMember
and Sync report success only if the representative secret's actual
recipient count (the packet-dump count) equals the number of entries in
the vault's updated member list; and whenever those counts differ at the
verification step, the operation surfaces the re-encryption-verification
failure to the caller as a hard error instead of success. -/
theorem reencryption_count_verified (env : Env) (tool : PassTool) (w : World)
    (vaultName memberEmail : GoStr) :
    (∀ w2 v2 s0 rest sec,
      runVaultAddMember env tool w vaultName memberEmail = (w2, .ok ()) →
      findVault w2.fs vaultName = some v2 →
      passList v2.store = s0 :: rest →
      lookupSecret v2.store s0 = some sec →
      sec.recipients.length = v2.cfg.members.length) ∧
    (∀ w2 v2 s0 rest sec,
      runVaultRemoveMember env tool w vaultName memberEmail = (w2, .ok ()) →
      findVault w2.fs vaultName = some v2 →
      passList v2.store = s0 :: rest →
      lookupSecret v2.store s0 = some sec →
      sec.recipients.length = v2.cfg.members.length) ∧
    (∀ w2 v2 s0 rest sec,
      runSync env tool w vaultName = (w2, .ok ()) →
      findVault w2.fs vaultName = some v2 →
      passList v2.store = s0 :: rest →
      lookupSecret v2.store s0 = some sec →
      sec.recipients.length = v2.cfg.members.length) ∧
    (∀ v s0 rest sec,
      findVault w.fs vaultName = some v →
      (env.userEmail != [] && !(v.cfg.members.contains env.userEmail)) = false →
      w.fs.keys.contains memberEmail = true →
      v.cfg.members.contains memberEmail = false →
      (passInitRun tool (importKeyToKeyring w.kr memberEmail)
        (gpgOptsEnvFor env.envGpgOpts) (v.cfg.members ++ [memberEmail])
        { v.store with gpgid := v.cfg.members ++ [memberEmail] }).2 = true →
      passList (passInitRun tool (importKeyToKeyring w.kr memberEmail)
        (gpgOptsEnvFor env.envGpgOpts) (v.cfg.members ++ [memberEmail])
        { v.store with gpgid := v.cfg.members ++ [memberEmail] }).1 = s0 :: rest →
      lookupSecret (passInitRun tool (importKeyToKeyring w.kr memberEmail)
        (gpgOptsEnvFor env.envGpgOpts) (v.cfg.members ++ [memberEmail])
        { v.store with gpgid := v.cfg.members ++ [memberEmail] }).1 s0 = some sec →
      sec.recipients.length ≠ (v.cfg.members ++ [memberEmail]).length →
      ∃ e, (runVaultAddMember env tool w vaultName memberEmail).2
        = .error (.reencryptFailed (.reencryptionVerificationFailed e))) ∧
    (∀ v s0 rest sec,
      findVault w.fs vaultName = some v →
      (env.userEmail != [] && !(v.cfg.members.contains env.userEmail)) = false →
      v.cfg.members.contains memberEmail = true →
      v.cfg.members.length ≠ 1 →
      (passInitRun tool w.kr (gpgOptsEnvFor env.envGpgOpts)
        (v.cfg.members.erase memberEmail)
        { v.store with gpgid := v.cfg.members.erase memberEmail }).2 = true →
      passList (passInitRun tool w.kr (gpgOptsEnvFor env.envGpgOpts)
        (v.cfg.members.erase memberEmail)
        { v.store with gpgid := v.cfg.members.erase memberEmail }).1 = s0 :: rest →
      lookupSecret (passInitRun tool w.kr (gpgOptsEnvFor env.envGpgOpts)
        (v.cfg.members.erase memberEmail)
        { v.store with gpgid := v.cfg.members.erase memberEmail }).1 s0 = some sec →
      sec.recipients.length ≠ (v.cfg.members.erase memberEmail).length →
      ∃ e, (runVaultRemoveMember env tool w vaultName memberEmail).2
        = .error (.reencryptFailed (.reencryptionVerificationFailed e))) ∧
    (∀ v s0 rest sec,
      validateName vaultName = .ok () →
      w.fs.dirExists = true →
      findVault w.fs vaultName = some v →
      (!(hasVaultAccess w.fs vaultName env.userEmail) && env.userEmail != []) = false →
      (passInitRun tool w.kr (gpgOptsEnvFor env.envGpgOpts) v.cfg.members
        { v.store with gpgid := v.cfg.members }).2 = true →
      passList (passInitRun tool w.kr (gpgOptsEnvFor env.envGpgOpts) v.cfg.members
        { v.store with gpgid := v.cfg.members }).1 = s0 :: rest →
      lookupSecret (passInitRun tool w.kr (gpgOptsEnvFor env.envGpgOpts) v.cfg.members
        { v.store with gpgid := v.cfg.members }).1 s0 = some sec →
      sec.recipients.length ≠ v.cfg.members.length →
      ∃ e, (runSync env tool w vaultName).2
        = .error (.reencryptFailed (.reencryptionVerificationFailed e))) := by
  refine ⟨?_, ?_, ?_, ?_, ?_, ?_⟩
  · intro w2 v2 s0 rest sec hrun hv2 hlist hsec
    rcases addMember_ok_inv env tool w vaultName memberEmail w2 hrun
      with ⟨v, st2, hfind, hre, hfind2⟩
    rw [hfind2] at hv2
    injection hv2 with hv2e
    rw [← hv2e] at hlist hsec ⊢
    dsimp only at hlist hsec ⊢
    rcases ReInit_ok_count tool (importKeyToKeyring w.kr memberEmail) env.envGpgOpts
      (v.cfg.members ++ [memberEmail]) v.store st2 hre s0 rest hlist
      with ⟨sec2, hsec2, hlen2⟩
    rw [hsec] at hsec2
    injection hsec2 with hse
    rw [← hse] at hlen2
    exact hlen2
  · intro w2 v2 s0 rest sec hrun hv2 hlist hsec
    rcases removeMember_ok_inv env tool w vaultName memberEmail w2 hrun
      with ⟨v, st2, hfind, hre, hfind2⟩
    rw [hfind2] at hv2
    injection hv2 with hv2e
    rw [← hv2e] at hlist hsec ⊢
    dsimp only at hlist hsec ⊢
    rcases ReInit_ok_count tool w.kr env.envGpgOpts
      (v.cfg.members.erase memberEmail) v.store st2 hre s0 rest hlist
      with ⟨sec2, hsec2, hlen2⟩
    rw [hsec] at hsec2
    injection hsec2 with hse
    rw [← hse] at hlen2
    exact hlen2
  · intro w2 v2 s0 rest sec hrun hv2 hlist hsec
    rcases sync_ok_inv env tool w vaultName w2 hrun
      with ⟨v, st2, hfind, hre, hfind2⟩
    rw [hfind2] at hv2
    injection hv2 with hv2e
    rw [← hv2e] at hlist hsec ⊢
    dsimp only at hlist hsec ⊢
    rcases ReInit_ok_count tool w.kr env.envGpgOpts v.cfg.members v.store st2 hre
      s0 rest hlist with ⟨sec2, hsec2, hlen2⟩
    rw [hsec] at hsec2
    injection hsec2 with hse
    rw [← hse] at hlen2
    exact hlen2
  · intro v s0 rest sec hfind hacc hkey hnot hexit hlist hsec hmm
    exact addMember_mismatch_error env tool w vaultName memberEmail v hfind hacc
      hkey hnot s0 rest sec hexit hlist hsec hmm
  · intro v s0 rest sec hfind hacc hmem hlen hexit hlist hsec hmm
    exact removeMember_mismatch_error env tool w vaultName memberEmail v hfind hacc
      hmem hlen s0 rest sec hexit hlist hsec hmm
  · intro v s0 rest sec hvn hdir hfind hacc hexit hlist hsec hmm
    exact sync_mismatch_error env tool w vaultName v hvn hdir hfind hacc
      s0 rest sec hexit hlist hsec hmm

theorem gpgOptsEnvFor_has_trust_override (e : GoStr) :
    containsStr (gpgOptsEnvFor e) (gs "--trust-model always") = true := by
  rw [containsStr_iff]
  unfold gpgOptsEnvFor
  by_cases h : e = []
  · rw [if_pos h]
  · rw [if_neg h]
    exact (List.suffix_append (e ++ gs " ") (gs "--trust-model always")).isInfix

theorem keyExists_import_self (kr : Keyring) (e : GoStr) :
    keyExists (importKeyToKeyring kr e) e = true := by
  unfold keyExists importKeyToKeyring
  split
  · rename_i h
    exact h
  · dsimp only
    rw [List.elem_iff]
    simp

theorem keyExists_import_mono (kr : Keyring) (e m : GoStr)
    (h : keyExists kr m = true) : keyExists (importKeyToKeyring kr e) m = true := by
  unfold keyExists importKeyToKeyring at *
  split
  · exact h
  · dsimp only
    rw [List.elem_iff] at h ⊢
    simp only [List.mem_append]
    exact Or.inl h

theorem mem_passList_lookup (st : PassStore) (n : GoStr) (h : n ∈ passList st) :
    ∃ sec, lookupSecret st n = some sec := by
  unfold passList at h
  have hmem : n ∈ st.secrets.map (fun p => p.1) := (List.mem_filter.mp h).1
  rcases List.mem_map.mp hmem with ⟨p, hp, hpe⟩
  unfold lookupSecret
  rcases hf : st.secrets.find? (fun q => q.1 == n) with _ | q
  · exfalso
    have hnone := List.find?_eq_none.mp hf p hp
    have hb : (p.1 == n) = true := by
      rw [hpe]
      simp
    exact hnone hb
  · rw [hf]
    exact ⟨q.2, rfl⟩

theorem lookupSecret_map_recips (secrets : List (GoStr × Secret)) (gid ids : List GoStr)
    (n : GoStr) (sec : Secret)
    (h : lookupSecret { gpgid := gid, secrets := secrets.map (fun p => (p.1, { p.2 with recipients := ids })) } n = some sec) :
    sec.recipients = ids := by
  unfold lookupSecret at h
  rcases hf : (secrets.map (fun p => (p.1, { p.2 with recipients := ids }))).find?
      (fun q => q.1 == n) with _ | q
  · rw [hf] at h
    simp at h
  · rw [hf] at h
    simp at h
    have hqmem := List.mem_of_find?_eq_some hf
    rcases List.mem_map.mp hqmem with ⟨p, hp, hpe⟩
    rw [← h, ← hpe]

theorem goodPass_reinit_ok (kr : Keyring) (envOpts : GoStr) (ids : List GoStr)
    (st : PassStore) (hne : ids ≠ [])
    (hall : ∀ m ∈ ids, keyExists kr m = true) :
    ReInit goodPassTool kr envOpts ids st
      = ({ gpgid := ids, secrets := st.secrets.map (fun p => (p.1, { p.2 with recipients := ids })) }, .ok ()) := by
  have htrust := gpgOptsEnvFor_has_trust_override envOpts
  have hexit : goodPassTool.initExit kr (gpgOptsEnvFor envOpts) ids
      { st with gpgid := ids } = true := by
    unfold goodPassTool
    dsimp only
    rw [if_pos htrust]
    rw [List.all_eq_true]
    intro m hm
    exact hall m hm
  have hinit : passInitRun goodPassTool kr (gpgOptsEnvFor envOpts) ids
      { st with gpgid := ids }
      = ({ gpgid := ids, secrets := st.secrets.map (fun p => (p.1, { p.2 with recipients := ids })) }, true) := by
    unfold passInitRun
    rw [if_pos hexit]
    dsimp only
    have harg : (fun (p : GoStr × Secret) =>
        (p.1, { p.2 with recipients := goodPassTool.reenc kr (gpgOptsEnvFor envOpts) ids p.1 p.2 }))
        = (fun (p : GoStr × Secret) => (p.1, { p.2 with recipients := ids })) := by
      funext p
      unfold goodPassTool
      dsimp only
      rw [if_pos htrust]
    rw [harg]
  set st2 : PassStore :=
    { gpgid := ids, secrets := st.secrets.map (fun p => (p.1, { p.2 with recipients := ids })) } with hst2
  have hver : ∀ s0 ∈ passList st2, VerifyEncryption kr st2 s0 ids = .ok () := by
    intro s0 hs0
    unfold VerifyEncryption
    have hfindnone : ids.find? (fun id => !(keyExists kr id)) = none := by
      rw [List.find?_eq_none]
      intro x hx
      rw [hall x hx]
      simp
    rw [hfindnone]
    rcases mem_passList_lookup st2 s0 hs0 with ⟨sec, hsec⟩
    rw [hsec]
    dsimp only
    have hrec : sec.recipients = ids := by
      apply lookupSecret_map_recips st.secrets ids ids s0 sec
      exact hsec
    rw [hrec]
    rw [if_neg (by simpa using hne)]
    rw [if_neg (by simp)]
  unfold ReInit
  dsimp only
  rw [hinit]
  rw [if_pos rfl]
  rcases hpl : passList st2 with _ | ⟨s0, rest⟩
  · rfl
  · dsimp only
    rw [hver s0 (hpl ▸ List.mem_cons_self s0 rest)]

/-- C2: `Pass.run` always injects `--trust-model always` into the GPG
options of the store invocation, and — under the spec-modelled external
semantics (`goodPassTool`) — adding a member whose key is present in the
keyring but NOT trusted succeeds end to end: the operation reports
success, no secret is lost, and every stored secret ends encrypted for
the new member, so a subsequent decrypt as that member succeeds. -/
theorem trust_override_add_untrusted (env : Env) (w : World)
    (vaultName memberEmail : GoStr) (v : Vault)
    (hfind : findVault w.fs vaultName = some v)
    (hacc : (env.userEmail != [] && !(v.cfg.members.contains env.userEmail)) = false)
    (hkeyfile : w.fs.keys.contains memberEmail = true)
    (hnot : v.cfg.members.contains memberEmail = false)
    (hpresent : ∀ m ∈ v.cfg.members, keyExists w.kr m = true) :
    containsStr (gpgOptsEnvFor env.envGpgOpts) (gs "--trust-model always") = true ∧
    ∃ w2, runVaultAddMember env goodPassTool w vaultName memberEmail = (w2, .ok ()) ∧
      ∃ v2, findVault w2.fs vaultName = some v2 ∧
        v2.store.secrets.length = v.store.secrets.length ∧
        ∀ p ∈ v2.store.secrets, memberEmail ∈ p.2.recipients := by
  refine ⟨gpgOptsEnvFor_has_trust_override env.envGpgOpts, ?_⟩
  have hall : ∀ m ∈ v.cfg.members ++ [memberEmail],
      keyExists (importKeyToKeyring w.kr memberEmail) m = true := by
    intro m hm
    rcases List.mem_append.mp hm with hm | hm
    · exact keyExists_import_mono w.kr memberEmail m (hpresent m hm)
    · simp only [List.mem_singleton] at hm
      rw [hm]
      exact keyExists_import_self w.kr memberEmail
  have hre := goodPass_reinit_ok (importKeyToKeyring w.kr memberEmail) env.envGpgOpts
    (v.cfg.members ++ [memberEmail]) v.store (by simp) hall
  unfold runVaultAddMember
  rw [hfind]
  dsimp only
  simp only [hacc, hkeyfile, hnot, Bool.not_true, Bool.false_eq_true, if_false]
  rw [hre]
  refine ⟨_, rfl, ?_⟩
  refine ⟨_, findVault_setVault_of_found w.fs vaultName v _ hfind, ?_, ?_⟩
  · dsimp only
    rw [List.length_map]
  · dsimp only
    intro p hp
    rcases List.mem_map.mp hp with ⟨q, hq, hqe⟩
    rw [← hqe]
    dsimp only
    exact List.mem_append_right _ (List.mem_singleton.mpr rfl)

theorem hasVaultAccess_setVault (s : Store) (n : GoStr) (v v2 : Vault) (email : GoStr)
    (hfind : findVault s n = some v) (hmem : v2.cfg.members = v.cfg.members) :
    hasVaultAccess (setVault s n v2) n email = hasVaultAccess s n email := by
  unfold hasVaultAccess
  rw [findVault_setVault_of_found s n v v2 hfind, hfind]
  dsimp only
  rw [hmem]

/-- C9: with the spec-modelled external semantics, two consecutive `sync`
calls on a vault (no membership change in between) both succeed, the
recipient sets of the vault's secrets agree after the first and after the
second call, and after each call every secret is encrypted for exactly
the vault's current member list. -/
theorem sync_idempotent (env : Env) (w : World) (vaultName : GoStr) (v : Vault)
    (hvn : validateName vaultName = .ok ())
    (hdir : w.fs.dirExists = true)
    (hfind : findVault w.fs vaultName = some v)
    (hmem : v.cfg.members ≠ [])
    (hpresent : ∀ m ∈ v.cfg.members, keyExists w.kr m = true)
    (hacc : (!(hasVaultAccess w.fs vaultName env.userEmail)
      && env.userEmail != []) = false) :
    ∃ w1 w2,
      runSync env goodPassTool w vaultName = (w1, .ok ()) ∧
      runSync env goodPassTool w1 vaultName = (w2, .ok ()) ∧
      ∃ v1 v2, findVault w1.fs vaultName = some v1 ∧
        findVault w2.fs vaultName = some v2 ∧
        v1.store.secrets.map (fun p => (p.1, p.2.recipients))
          = v2.store.secrets.map (fun p => (p.1, p.2.recipients)) ∧
        (∀ p ∈ v1.store.secrets, p.2.recipients = v.cfg.members) ∧
        (∀ p ∈ v2.store.secrets, p.2.recipients = v.cfg.members) := by
  have hre1 := goodPass_reinit_ok w.kr env.envGpgOpts v.cfg.members v.store hmem hpresent
  set st2 : PassStore := { gpgid := v.cfg.members, secrets := v.store.secrets.map (fun p => (p.1, { p.2 with recipients := v.cfg.members })) } with hst2
  set v1 : Vault := { cfg := { v.cfg with updatedAt := env.now }, store := st2 } with hv1
  have hrun1 : runSync env goodPassTool w vaultName
      = ({ w with fs := setVault w.fs vaultName v1 }, .ok ()) := by
    unfold runSync
    rw [hvn]
    dsimp only
    rw [hdir, hfind]
    dsimp only
    simp only [hacc, Bool.not_true, Bool.false_eq_true, if_false]
    rw [hre1]
  have hfind1 : findVault (setVault w.fs vaultName v1) vaultName = some v1 :=
    findVault_setVault_of_found w.fs vaultName v v1 hfind
  have hre2 := goodPass_reinit_ok w.kr env.envGpgOpts v.cfg.members st2 hmem hpresent
  have hst3 : st2.secrets.map (fun p => (p.1, { p.2 with recipients := v.cfg.members }))
      = st2.secrets := by
    rw [hst2]
    dsimp only
    rw [List.map_map]
    congr 1
  have hsteq : ({ gpgid := v.cfg.members, secrets := st2.secrets } : PassStore) = st2 := by
    rw [hst2]
  rw [hst3, hsteq] at hre2
  have hacc1 : (!(hasVaultAccess (setVault w.fs vaultName v1) vaultName env.userEmail)
      && env.userEmail != []) = false := by
    rw [hasVaultAccess_setVault w.fs vaultName v v1 env.userEmail hfind rfl]
    exact hacc
  have hdir1 : (setVault w.fs vaultName v1).dirExists = true := by
    unfold setVault
    exact hdir
  have hrun2 : runSync env goodPassTool { w with fs := setVault w.fs vaultName v1 } vaultName
      = ({ w with fs := setVault (setVault w.fs vaultName v1) vaultName v1 }, .ok ()) := by
    unfold runSync
    rw [hvn]
    dsimp only
    rw [hdir1, hfind1]
    dsimp only
    simp only [hacc1, Bool.not_true, Bool.false_eq_true, if_false]
    rw [hre2]
  have hrecips : ∀ p ∈ v1.store.secrets, p.2.recipients = v.cfg.members := by
    intro p hp
    have hp2 : p ∈ v.store.secrets.map
        (fun q => (q.1, { q.2 with recipients := v.cfg.members })) := hp
    rcases List.mem_map.mp hp2 with ⟨q, hq, hqe⟩
    rw [← hqe]
  exact ⟨_, _, hrun1, hrun2, v1, v1, hfind1,
    findVault_setVault_of_found _ vaultName v1 v1 hfind1, rfl, hrecips, hrecips⟩

/-- Concrete fixture: an external `pass` that exits 0 but silently writes
no recipients at all (the historical bug's observable behaviour). -/
def silentDropTool : PassTool where
  initExit _ _ _ _ := true
  reenc _ _ _ _ _ := []

/-- Witness for C1: with the silently failing tool, adding bob to `dev`
(which holds one secret) is reported as a hard
re-encryption-verification error, not success. -/
theorem reencryption_count_verified_witness :
    ∃ e, (runVaultAddMember aliceEnv silentDropTool fixtureWorld devStr bobStr).2
      = .error (.reencryptFailed (.reencryptionVerificationFailed e)) :=
  (reencryption_count_verified aliceEnv silentDropTool fixtureWorld devStr
    bobStr).2.2.2.1 fixtureVault dbStr [] { value := gs "p@ss", recipients := [] }
    (by decide) (by decide) (by decide) (by decide) (by decide) (by decide)
    (by decide) (by decide)

/-- Witness for C2: adding bob — whose key is present but NOT in the
trusted set — to `dev` succeeds end to end and leaves every secret
encrypted for bob. -/
theorem trust_override_add_untrusted_witness :
    ∃ w2, runVaultAddMember aliceEnv goodPassTool fixtureWorld devStr bobStr
        = (w2, .ok ()) ∧
      ∃ v2, findVault w2.fs devStr = some v2 ∧
        v2.store.secrets.length = fixtureVault.store.secrets.length ∧
        ∀ p ∈ v2.store.secrets, bobStr ∈ p.2.recipients :=
  (trust_override_add_untrusted aliceEnv fixtureWorld devStr bobStr fixtureVault
    (by decide) (by decide) (by decide) (by decide) (by decide)).2

/-- Witness for C9: two consecutive syncs of `dev` both succeed with the
same recipient sets. -/
theorem sync_idempotent_witness :
    ∃ w1 w2,
      runSync aliceEnv goodPassTool fixtureWorld devStr = (w1, .ok ()) ∧
      runSync aliceEnv goodPassTool w1 devStr = (w2, .ok ()) ∧
      ∃ v1 v2, findVault w1.fs devStr = some v1 ∧
        findVault w2.fs devStr = some v2 ∧
        v1.store.secrets.map (fun p => (p.1, p.2.recipients))
          = v2.store.secrets.map (fun p => (p.1, p.2.recipients)) ∧
        (∀ p ∈ v1.store.secrets, p.2.recipients = fixtureVault.cfg.members) ∧
        (∀ p ∈ v2.store.secrets, p.2.recipients = fixtureVault.cfg.members) :=
  sync_idempotent aliceEnv fixtureWorld devStr fixtureVault (by decide) (by decide)
    (by decide) (by decide) (by decide) (by decide)
